import Mathlib

/-!
# AyurSadhna: the analysis proxy of `server.js`

A shallow embedding of the `POST /api/analyze` handler of `src/server.js` and of the
JavaScript operations it relies on (truthiness, property access, optional chaining,
`String.prototype.replace` with the fence pattern, `String.prototype.trim`, `JSON.parse`,
`JSON.stringify`), followed by the properties of the handler that the specification states.

Conventions of the embedding:

* A JavaScript string is the list of its UTF-16 code units; `utf16` encodes a Lean string.
* A JavaScript number is an IEEE double, given by sign, integer mantissa and binary
  exponent, or an infinity.  `JSON.parse` rounds a decimal literal to the nearest double,
  ties to even.  No operation of the handler produces `NaN`.
* `undefined` is `none` in an `Option JVal`; every other value is a `JVal`.
* A thrown exception is the `error` side of `Except JsString _`, carrying `err.message`.
* What the handler sends as JSON is recorded as the value that the written text denotes:
  `JSON.stringify` writes an infinite number as `null` and negative zero as `0`.
* The upstream service is an oracle from the outbound call to what `fetch` produces.
* The wording of a `SyntaxError` depends on the JavaScript engine and on the input; it is
  a parameter of the embedding (`Engine`).
-/

namespace AyurSadhna

/-! ## JavaScript strings and numbers -/

/-- A JavaScript string: its UTF-16 code units. -/
abbrev JsString := List Nat

/-- The one or two UTF-16 code units of a Unicode scalar value. -/
def utf16Char (c : Char) : List Nat :=
  if c.toNat < 65536 then [c.toNat]
  else [55296 + (c.toNat - 65536) / 1024, 56320 + (c.toNat - 65536) % 1024]

/-- UTF-16 encoding of a list of Unicode scalar values. -/
def utf16Chars : List Char → JsString
  | [] => []
  | c :: cs => utf16Char c ++ utf16Chars cs

/-- The JavaScript string with the content of a Lean string. -/
def utf16 (s : String) : JsString :=
  utf16Chars s.data

/-- A JavaScript number other than `NaN`: the double `± mantissa * 2 ^ exponent`, or an
infinity. -/
inductive JsNumber where
  | finite (negative : Bool) (mantissa : Nat) (exponent : Int) : JsNumber
  | infinite (negative : Bool) : JsNumber
deriving DecidableEq

/-- Nearest integer to `a / b`, ties to even. -/
def roundHalfEven (a b : Nat) : Nat :=
  if 2 * (a % b) < b then a / b
  else if b < 2 * (a % b) then a / b + 1
  else if (a / b) % 2 = 0 then a / b else a / b + 1

/-- Whether `2 ^ (k - 1075) ≤ a / b`. -/
def scaledLe (a b k : Nat) : Bool :=
  if 1075 ≤ k then b * 2 ^ (k - 1075) ≤ a else b ≤ a * 2 ^ (1075 - k)

/-- Bisection, in `fuel` steps, for the largest `k` in `lo .. hi - 1` with
`2 ^ (k - 1075) ≤ a / b`. -/
def binaryExponent : Nat → Nat → Nat → Nat → Nat → Nat
  | 0, lo, _, _, _ => lo
  | f + 1, lo, hi, a, b =>
    if hi ≤ lo + 1 then lo
    else if scaledLe a b ((lo + hi) / 2) then binaryExponent f ((lo + hi) / 2) hi a b
    else binaryExponent f lo ((lo + hi) / 2) a b

/-- The double nearest to the positive ratio `a / b`, ties to even, with the given sign:
an infinity from `2 ^ 1024` on, zero below `2 ^ (-1075)`, otherwise a mantissa of at most
53 bits over an exponent of at least `-1074`. -/
def roundRatio (negative : Bool) (a b : Nat) : JsNumber :=
  if scaledLe a b 2099 then .infinite negative
  else if !scaledLe a b 0 then .finite negative 0 0
  else
    let p := binaryExponent 12 0 2099 a b - 53
    let m :=
      if 1074 ≤ p then roundHalfEven a (b * 2 ^ (p - 1074))
      else roundHalfEven (a * 2 ^ (1074 - p)) b
    if m = 0 then .finite negative 0 0
    else if m = 2 ^ 53 then
      if 2045 ≤ p then .infinite negative else .finite negative (2 ^ 52) ((p : Int) - 1073)
    else .finite negative m ((p : Int) - 1074)

/-- The double that a decimal literal `± m * 10 ^ e` denotes. -/
def toDouble (negative : Bool) (m : Nat) (e : Int) : JsNumber :=
  if m = 0 then .finite negative 0 0
  else if 0 ≤ e then roundRatio negative (m * 10 ^ e.toNat) 1
  else roundRatio negative m (10 ^ (-e).toNat)

/-! ## JSON values and JavaScript value operations -/

/-- JSON values as JavaScript holds them: what `JSON.parse` produces and `res.json`
consumes.  The members of an object stand in enumeration order. -/
inductive JVal where
  | null : JVal
  | bool (b : Bool) : JVal
  | num (x : JsNumber) : JVal
  | str (s : JsString) : JVal
  | arr (items : List JVal) : JVal
  | obj (members : List (JsString × JVal)) : JVal

/-- JavaScript truthiness of a value that may be `undefined` (`none`). -/
def truthy : Option JVal → Bool
  | none => false
  | some .null => false
  | some (.bool b) => b
  | some (.num (.finite _ m _)) => m != 0
  | some (.num (.infinite _)) => true
  | some (.str s) => !s.isEmpty
  | some (.arr _) => true
  | some (.obj _) => true

/-- The JavaScript expression `v || d` for a default `d` that is a JSON value. -/
def jsOr (v : Option JVal) (d : JVal) : JVal :=
  match v with
  | some x => if truthy (some x) then x else d
  | none => d

/-- Own-property lookup in an object: when a key stands twice in the list, the last
value counts. -/
def lookupMember (k : JsString) : List (JsString × JVal) → Option JVal
  | [] => none
  | (k', v) :: rest =>
    match lookupMember k rest with
    | some w => some w
    | none => if k' = k then some v else none

/-- The property read `v.k` on a value that is neither `null` nor `undefined`, for a key
`k` that is not a member of any built-in prototype (all keys read by the handler are such
keys).  Only objects carry own properties under such a key. -/
def member (v : JVal) (k : JsString) : Option JVal :=
  match v with
  | .obj kvs => lookupMember k kvs
  | _ => none

/-- The index read `v[0]` on a value that is neither `null` nor `undefined`. -/
def index0 (v : JVal) : Option JVal :=
  match v with
  | .arr (x :: _) => some x
  | .obj kvs => lookupMember (utf16 "0") kvs
  | .str (c :: _) => some (.str [c])
  | _ => none

/-- The property read `v.k` where `v` is a variable holding a JSON value: reading a
property of `null` throws a `TypeError` (wording of V8). -/
def getProp (v : JVal) (k : JsString) : Except JsString (Option JVal) :=
  match v with
  | .null =>
    .error (utf16 "Cannot read properties of null (reading \x27" ++ k ++ utf16 "\x27)")
  | w => .ok (member w k)

/-- Optional chaining `v?.k`. -/
def optProp (v : Option JVal) (k : JsString) : Option JVal :=
  match v with
  | none => none
  | some .null => none
  | some w => member w k

/-- Optional chaining `v?.[0]`. -/
def optIndex0 (v : Option JVal) : Option JVal :=
  match v with
  | none => none
  | some .null => none
  | some w => index0 w

/-- The JSON number that `JSON.stringify` writes for a number: `null` for an infinity,
`0` for either zero. -/
def wireNumber : JsNumber → JVal
  | .infinite _ => .null
  | .finite negative m e => if m = 0 then .num (.finite false 0 0) else .num (.finite negative m e)

mutual
/-- The JSON value denoted by the text that `JSON.stringify` writes for a value. -/
def wire : JVal → JVal
  | .num x => wireNumber x
  | .arr xs => .arr (wireItems xs)
  | .obj kvs => .obj (wireMembers kvs)
  | v => v
/-- The function `wire` along the items of an array. -/
def wireItems : List JVal → List JVal
  | [] => []
  | x :: xs => wire x :: wireItems xs
/-- The function `wire` along the members of an object. -/
def wireMembers : List (JsString × JVal) → List (JsString × JVal)
  | [] => []
  | (k, v) :: r => (k, wire v) :: wireMembers r
end

/-! ## `text.replace(/```json|```/g, '').trim()` -/

/-- The three code units of a code fence. -/
def fence : JsString := utf16 "```"

/-- The fence followed by the language tag. -/
def fenceJson : JsString := utf16 "```json"

/-- Global replacement of the pattern by the empty string with `fuel` steps: at each
position the alternatives are tried in order (the tagged fence first); a match is dropped
and scanning resumes right after it; otherwise the code unit is copied. -/
def stripFencesAux : Nat → JsString → JsString
  | 0, _ => []
  | _ + 1, [] => []
  | n + 1, c :: cs =>
    if fenceJson.isPrefixOf (c :: cs) then stripFencesAux n ((c :: cs).drop 7)
    else if fence.isPrefixOf (c :: cs) then stripFencesAux n ((c :: cs).drop 3)
    else c :: stripFencesAux n cs

/-- The replacement `text.replace(/```json|```/g, '')`. -/
def stripFences (cs : JsString) : JsString :=
  stripFencesAux cs.length cs

/-- The code units that `String.prototype.trim` removes: ECMAScript `WhiteSpace` and
`LineTerminator`. -/
def isJsWhitespace (n : Nat) : Bool :=
  n == 9 || n == 10 || n == 11 || n == 12 || n == 13 || n == 32 || n == 160
    || n == 5760 || (8192 ≤ n && n ≤ 8202) || n == 8232 || n == 8233 || n == 8239
    || n == 8287 || n == 12288 || n == 65279

/-- Removal of trailing whitespace. -/
def trimEnd (cs : JsString) : JsString :=
  (cs.reverse.dropWhile isJsWhitespace).reverse

/-- The method `String.prototype.trim`. -/
def jsTrim (cs : JsString) : JsString :=
  trimEnd (cs.dropWhile isJsWhitespace)

/-- The expression `text.replace(/```json|```/g, '').trim()` of the handler. -/
def clean (text : JsString) : JsString :=
  jsTrim (stripFences text)

/-! ## `JSON.parse` -/

/-- Lexical tokens of JSON; a number token keeps its sign, decimal mantissa and decimal
exponent. -/
inductive Token where
  | lbrace | rbrace | lbrack | rbrack | comma | colon
  | str (s : JsString)
  | num (negative : Bool) (mantissa : Nat) (exponent : Int)
  | litTrue | litFalse | litNull

/-- JSON insignificant whitespace: space, tab, line feed, carriage return. -/
def isJsonWhitespace (n : Nat) : Bool :=
  n == 32 || n == 9 || n == 10 || n == 13

/-- Decimal digits. -/
def isDigit (n : Nat) : Bool :=
  48 ≤ n && n ≤ 57

/-- Value of a hexadecimal digit. -/
def hexVal (n : Nat) : Option Nat :=
  if 48 ≤ n && n ≤ 57 then some (n - 48)
  else if 65 ≤ n && n ≤ 70 then some (n - 55)
  else if 97 ≤ n && n ≤ 102 then some (n - 87)
  else none

/-- The code unit denoted by a one-letter escape: quote, backslash, slash, `b`, `f`, `n`,
`r`, `t`. -/
def unescape (n : Nat) : Option Nat :=
  if n == 34 || n == 92 || n == 47 then some n
  else if n == 98 then some 8
  else if n == 102 then some 12
  else if n == 110 then some 10
  else if n == 114 then some 13
  else if n == 116 then some 9
  else none

/-- Reads a string body up to its closing quote (the opening quote is already consumed)
and returns the decoded code units and the rest of the input.  A four-digit escape
denotes the code unit of that value, a surrogate included. -/
def lexString : List Nat → Option (JsString × List Nat)
  | [] => none
  | c :: cs =>
    if c == 34 then some ([], cs)
    else if c == 92 then
      match cs with
      | [] => none
      | e :: cs1 =>
        if e == 117 then
          match cs1 with
          | h1 :: h2 :: h3 :: h4 :: rest =>
            match hexVal h1, hexVal h2, hexVal h3, hexVal h4 with
            | some a, some b, some x, some d =>
              (lexString rest).map (fun p => ((4096 * a + 256 * b + 16 * x + d) :: p.1, p.2))
            | _, _, _, _ => none
          | _ => none
        else
          match unescape e with
          | some ch => (lexString cs1).map (fun p => (ch :: p.1, p.2))
          | none => none
    else if c < 32 then none
    else (lexString cs).map (fun p => (c :: p.1, p.2))

/-- Value of a run of decimal digits. -/
def digitsVal (ds : List Nat) : Nat :=
  ds.foldl (fun acc d => 10 * acc + (d - 48)) 0

/-- Reads an optional fraction: a dot followed by at least one digit. -/
def lexFrac (cs : List Nat) : Option (List Nat × List Nat) :=
  match cs with
  | c :: r =>
    if c == 46 then
      if (r.takeWhile isDigit).isEmpty then none
      else some (r.takeWhile isDigit, r.dropWhile isDigit)
    else some ([], cs)
  | [] => some ([], [])

/-- Reads the digits of an exponent, after `e` and the optional sign. -/
def lexExpDigits (negative : Bool) (cs : List Nat) : Option (Int × List Nat) :=
  if (cs.takeWhile isDigit).isEmpty then none
  else
    let v : Int := (digitsVal (cs.takeWhile isDigit) : Nat)
    some (if negative then -v else v, cs.dropWhile isDigit)

/-- Reads an optional exponent: `e` or `E`, an optional sign, at least one digit. -/
def lexExp (cs : List Nat) : Option (Int × List Nat) :=
  match cs with
  | c :: r =>
    if c == 101 || c == 69 then
      match r with
      | s :: r1 =>
        if s == 43 then lexExpDigits false r1
        else if s == 45 then lexExpDigits true r1
        else lexExpDigits false r
      | [] => none
    else some (0, cs)
  | [] => some (0, [])

/-- Reads the digits of a number after its optional minus sign: the sign, the decimal
mantissa and the decimal exponent of the literal. -/
def lexUnsigned (negative : Bool) (cs : List Nat) : Option ((Bool × Nat × Int) × List Nat) :=
  let ip := cs.takeWhile isDigit
  if ip.isEmpty then none
  else if 1 < ip.length && ip.head? == some 48 then none
  else
    match lexFrac (cs.dropWhile isDigit) with
    | none => none
    | some (fp, cs3) =>
      match lexExp cs3 with
      | none => none
      | some (ex, cs4) =>
        some ((negative, digitsVal (ip ++ fp), ex - (fp.length : Int)), cs4)

/-- Reads a JSON number: optional minus, integer part without a leading zero, optional
fraction, optional exponent. -/
def lexNumber (cs : List Nat) : Option ((Bool × Nat × Int) × List Nat) :=
  match cs with
  | c :: r => if c == 45 then lexUnsigned true r else lexUnsigned false cs
  | [] => none

/-- The code units of the literal `true`. -/
def trueChars : List Nat := utf16 "true"

/-- The code units of the literal `false`. -/
def falseChars : List Nat := utf16 "false"

/-- The code units of the literal `null`. -/
def nullChars : List Nat := utf16 "null"

/-- Reads the token that starts with the code unit `c`, which is not whitespace, and
returns it with the rest of the input after it. -/
def lexToken (c : Nat) (cs : List Nat) : Option (Token × List Nat) :=
  if c == 123 then some (.lbrace, cs)
  else if c == 125 then some (.rbrace, cs)
  else if c == 91 then some (.lbrack, cs)
  else if c == 93 then some (.rbrack, cs)
  else if c == 44 then some (.comma, cs)
  else if c == 58 then some (.colon, cs)
  else if c == 34 then
    (lexString cs).map (fun p => (Token.str p.1, p.2))
  else if c == 45 || isDigit c then
    (lexNumber (c :: cs)).map (fun p => (Token.num p.1.1 p.1.2.1 p.1.2.2, p.2))
  else if trueChars.isPrefixOf (c :: cs) then some (.litTrue, (c :: cs).drop 4)
  else if falseChars.isPrefixOf (c :: cs) then some (.litFalse, (c :: cs).drop 5)
  else if nullChars.isPrefixOf (c :: cs) then some (.litNull, (c :: cs).drop 4)
  else none

/-- Splits the input into tokens, with `fuel` steps: whitespace between tokens is
skipped, anything that starts no token is an error. -/
def tokenize : Nat → List Nat → Option (List Token)
  | 0, _ => none
  | _ + 1, [] => some []
  | n + 1, c :: cs =>
    if isJsonWhitespace c then tokenize n cs
    else
      match lexToken c cs with
      | some (tok, rest) => (tokenize n rest).map (tok :: ·)
      | none => none

/-- The array index that a property key denotes, if any: a decimal numeral without a
leading zero, below `2 ^ 32 - 1`. -/
def arrayIndex (k : JsString) : Option Nat :=
  match k with
  | [] => none
  | c :: r =>
    if (c :: r).all isDigit && (c != 48 || r.isEmpty) && digitsVal (c :: r) < 4294967295
    then some (digitsVal (c :: r))
    else none

/-- Places a new member whose key is the array index `i`: array indices come first, in
ascending order. -/
def insertIndex (i : Nat) (k : JsString) (v : JVal) :
    List (JsString × JVal) → List (JsString × JVal)
  | [] => [(k, v)]
  | (k', v') :: rest =>
    match arrayIndex k' with
    | some j =>
      if j < i then (k', v') :: insertIndex i k v rest else (k, v) :: (k', v') :: rest
    | none => (k, v) :: (k', v') :: rest

/-- Definition of the property `k` with value `v` on an object under construction: a key
already there keeps its place and takes the new value; a new array index goes among the
indices; any other new key goes last. -/
def insertMember (k : JsString) (v : JVal) (members : List (JsString × JVal)) :
    List (JsString × JVal) :=
  if members.any (fun p => p.1 == k) then
    members.map (fun p => if p.1 == k then (k, v) else p)
  else
    match arrayIndex k with
    | some i => insertIndex i k v members
    | none => members ++ [(k, v)]

mutual
/-- Parses one JSON value from the tokens, with `fuel` levels of nesting and length. -/
def parseValue : Nat → List Token → Option (JVal × List Token)
  | 0, _ => none
  | n + 1, ts =>
    match ts with
    | .str s :: r => some (.str s, r)
    | .num negative m e :: r => some (.num (toDouble negative m e), r)
    | .litTrue :: r => some (.bool true, r)
    | .litFalse :: r => some (.bool false, r)
    | .litNull :: r => some (.null, r)
    | .lbrack :: .rbrack :: r => some (.arr [], r)
    | .lbrack :: r => (parseElems n r).map (fun p => (.arr p.1, p.2))
    | .lbrace :: .rbrace :: r => some (.obj [], r)
    | .lbrace :: r => (parseMembers n [] r).map (fun p => (.obj p.1, p.2))
    | _ => none
/-- Parses the elements of a non-empty array up to the closing bracket. -/
def parseElems : Nat → List Token → Option (List JVal × List Token)
  | 0, _ => none
  | n + 1, ts =>
    match parseValue n ts with
    | some (v, .comma :: r) => (parseElems n r).map (fun p => (v :: p.1, p.2))
    | some (v, .rbrack :: r) => some ([v], r)
    | _ => none
/-- Parses the members of a non-empty object up to the closing brace, adding each to the
members read so far. -/
def parseMembers : Nat → List (JsString × JVal) → List Token →
    Option (List (JsString × JVal) × List Token)
  | 0, _, _ => none
  | n + 1, acc, ts =>
    match ts with
    | .str k :: .colon :: r =>
      match parseValue n r with
      | some (v, .comma :: r1) => parseMembers n (insertMember k v acc) r1
      | some (v, .rbrace :: r1) => some (insertMember k v acc, r1)
      | _ => none
    | _ => none
end

/-- What the handler depends on and the source does not fix: the message of the
`SyntaxError` that `JSON.parse` throws on a given text.  Its wording varies with the
JavaScript engine; it is never empty. -/
structure Engine where
  parseErrorMessage : JsString → JsString
  parseErrorMessage_ne : ∀ s, parseErrorMessage s ≠ []

/-- The function `JSON.parse`: the parsed value, or the message of the `SyntaxError`. -/
def JSON.parse (engine : Engine) (s : JsString) : Except JsString JVal :=
  match tokenize (s.length + 1) s with
  | none => .error (engine.parseErrorMessage s)
  | some ts =>
    match parseValue (ts.length + 1) ts with
    | some (v, []) => .ok v
    | _ => .error (engine.parseErrorMessage s)

/-! ## The handler of `POST /api/analyze` -/

/-- What the handler writes with `res.status(s).json(v)`: the status and the JSON value
that the body text denotes. -/
structure Response where
  status : Nat
  body : JVal

/-- The call `res.status(status).json(v)`; `res.json(v)` alone leaves the status at 200. -/
def resJson (status : Nat) (v : JVal) : Response :=
  { status := status, body := wire v }

/-- The request that the handler passes to `fetch`; `body` is the JSON value denoted by
the text that `JSON.stringify` writes for the request object. -/
structure OutboundCall where
  url : String
  method : String
  headers : List (String × String)
  body : JVal

/-- What `await fetch(...)` produces: a rejection carrying the error message, or an HTTP
response with its status, its address `response.url` and its body text. -/
inductive FetchOutcome where
  | failed (message : JsString)
  | response (status : Nat) (address : String) (bodyText : String)

/-- The upstream service, as an oracle consulted once per outbound call. -/
abbrev Upstream := OutboundCall → FetchOutcome

/-- The response of the handler together with the outbound calls it made, in order. -/
structure Outcome where
  response : Response
  calls : List OutboundCall

/-- The body `{ error: m }`. -/
def errorBody (m : JVal) : JVal :=
  .obj [(utf16 "error", m)]

/-- The instruction text sent along with the image. -/
def prompt : String :=
  "You are an expert Ayurvedic nutritionist with deep knowledge of Charaka Samhita, Ashtanga Hridayam, and Sushruta Samhita. Analyze the food items in this image.\n"
    ++ "\n"
    ++ "Respond ONLY with valid JSON and nothing else (no markdown, no code blocks, no extra text):\n"
    ++ "\x7b\n"
    ++ "  \"identified_foods\": [\"food1\",\"food2\"],\n"
    ++ "  \"compatibility\": \"compatible\",\n"
    ++ "  \"compatibility_score\": 75,\n"
    ++ "  \"verdict_title\": \"4-6 word verdict\",\n"
    ++ "  \"verdict_subtitle\": \"One sentence explanation\",\n"
    ++ "  \"dosha_effects\": \x7b\"vata\":\"increases\",\"pitta\":\"neutral\",\"kapha\":\"decreases\"\x7d,\n"
    ++ "  \"dosha_notes\": \"1-2 sentence dosha note\",\n"
    ++ "  \"ayurveda_analysis\": \"3-5 sentence Ayurvedic analysis based on Viruddha Ahara, Rasa, Virya, Vipaka principles\",\n"
    ++ "  \"cautions\": [\"caution1\",\"caution2\"],\n"
    ++ "  \"suggestions\": [\"tip1\",\"tip2\",\"tip3\"]\n"
    ++ "\x7d\n"
    ++ "\n"
    ++ "compatibility must be exactly one of: \"compatible\", \"incompatible\", or \"moderate\".\n"
    ++ "Score 0-100. If you cannot clearly see food, do your best based on what is visible."

/-- The endpoint of the upstream service, with the credential as a query parameter. -/
def url (GEMINI_API_KEY : String) : String :=
  "https://generativelanguage.googleapis.com/v1beta/models/gemini-2.0-flash:generateContent?key="
    ++ GEMINI_API_KEY

/-- The request object of the handler, the argument of `JSON.stringify`. -/
def requestObject (imageBase64 : JVal) (mediaType : Option JVal) : JVal :=
  .obj
    [ (utf16 "contents", .arr
        [ .obj
            [ (utf16 "parts", .arr
                [ .obj
                    [ (utf16 "inline_data", .obj
                        [ (utf16 "mime_type", jsOr mediaType (.str (utf16 "image/jpeg"))),
                          (utf16 "data", imageBase64) ]) ],
                  .obj [(utf16 "text", .str (utf16 prompt))] ]) ] ]),
      (utf16 "generationConfig", .obj
        [ (utf16 "temperature", .num (toDouble false 4 (-1))),
          (utf16 "maxOutputTokens", .num (toDouble false 1024 0)) ]) ]

/-- The outbound call built by the handler for an image and the optional media type. -/
def outboundCall (GEMINI_API_KEY : String) (imageBase64 : JVal) (mediaType : Option JVal) :
    OutboundCall :=
  { url := url GEMINI_API_KEY
    method := "POST"
    headers := [("Content-Type", "application/json")]
    body := wire (requestObject imageBase64 mediaType) }

/-- The property `response.ok` of node-fetch: the status lies in 200..299. -/
def responseOk (status : Nat) : Bool :=
  200 ≤ status && status < 300

/-- The method `response.json()` of node-fetch: the body text parsed as JSON; a parse
failure is rethrown with the address of the response and the reason. -/
def responseJson (engine : Engine) (address : String) (bodyText : String) :
    Except JsString JVal :=
  match JSON.parse engine (utf16 bodyText) with
  | .ok v => .ok v
  | .error m =>
    .error (utf16 "invalid json response body at " ++ utf16 address ++ utf16 " reason: " ++ m)

/-- The destructuring `const { imageBase64, mediaType } = req.body`; it throws when the
body is `null` (wording of V8). -/
def destructure (reqBody : JVal) : Except JsString (Option JVal × Option JVal) :=
  match reqBody with
  | .null =>
    .error (utf16
      "Cannot destructure property \x27imageBase64\x27 of \x27req.body\x27 as it is null.")
  | b => .ok (member b (utf16 "imageBase64"), member b (utf16 "mediaType"))

/-- The expression `data.error?.message` of the handler. -/
def errorMessage (data : JVal) : Except JsString (Option JVal) :=
  match getProp data (utf16 "error") with
  | .error m => .error m
  | .ok e => .ok (optProp e (utf16 "message"))

/-- The expression `data.candidates?.[0]?.content?.parts?.[0]?.text` of the handler. -/
def candidateText (data : JVal) : Except JsString (Option JVal) :=
  match getProp data (utf16 "candidates") with
  | .error m => .error m
  | .ok c =>
    .ok (optProp (optIndex0 (optProp (optProp (optIndex0 c) (utf16 "content"))
      (utf16 "parts"))) (utf16 "text"))

/-- The handler from `const data = await response.json()` to the end of the `try` block:
the response written, or the message of the exception thrown. -/
def relay (engine : Engine) (address : String) (status : Nat) (bodyText : String) :
    Except JsString Response :=
  match responseJson engine address bodyText with
  | .error m => .error m
  | .ok data =>
    if !responseOk status then
      match errorMessage data with
      | .error m => .error m
      | .ok message =>
        let errMsg := jsOr message (.str (utf16 "Gemini API error"))
        .ok (resJson status (errorBody errMsg))
    else
      match candidateText data with
      | .error m => .error m
      | .ok t =>
        let text := jsOr t (.str [])
        if !truthy (some text) then
          .ok (resJson 500 (errorBody (.str (utf16 "Empty response from Gemini"))))
        else
          match text with
          | .str s =>
            match JSON.parse engine (clean s) with
            | .error m => .error m
            | .ok result => .ok (resJson 200 result)
          | _ => .error (utf16 "text.replace is not a function")

/-- The `try` block of the handler: the outbound calls made, and either the response
written or the message of the exception thrown. -/
def tryBlock (engine : Engine) (GEMINI_API_KEY : String) (reqBody : JVal)
    (upstream : Upstream) : List OutboundCall × Except JsString Response :=
  match destructure reqBody with
  | .error m => ([], .error m)
  | .ok (imageBase64, mediaType) =>
    match imageBase64 with
    | none => ([], .ok (resJson 400 (errorBody (.str (utf16 "imageBase64 is required")))))
    | some image =>
      if !truthy (some image) then
        ([], .ok (resJson 400 (errorBody (.str (utf16 "imageBase64 is required")))))
      else
        let call := outboundCall GEMINI_API_KEY image mediaType
        match upstream call with
        | .failed m => ([call], .error m)
        | .response status address bodyText =>
          ([call], relay engine address status bodyText)

/-- The `catch` block: status 500 with `err.message || 'Internal server error'`. -/
def catchBlock (message : JsString) : Response :=
  resJson 500
    (errorBody (.str (if message.isEmpty then utf16 "Internal server error" else message)))

/-- The handler of `POST /api/analyze`, for the JavaScript engine, the value of the
environment variable `GEMINI_API_KEY` (`none` when unset), the parsed request body
`req.body` and the upstream service. -/
def analyze (engine : Engine) (GEMINI_API_KEY : Option String) (reqBody : JVal)
    (upstream : Upstream) : Outcome :=
  match GEMINI_API_KEY with
  | none =>
    { response := resJson 500 (errorBody (.str (utf16 "GEMINI_API_KEY not set on server")))
      calls := [] }
  | some key =>
    if key = "" then
      { response := resJson 500 (errorBody (.str (utf16 "GEMINI_API_KEY not set on server")))
        calls := [] }
    else
      match tryBlock engine key reqBody upstream with
      | (calls, .ok r) => { response := r, calls := calls }
      | (calls, .error m) => { response := catchBlock m, calls := calls }

/-! ## Notions used to state the properties -/

/-- The value is a JSON object. -/
def isObject : JVal → Bool
  | .obj _ => true
  | _ => false

/-- The value is a JSON string. -/
def isString : JVal → Bool
  | .str _ => true
  | _ => false

/-- The inline image part `contents[0].parts[0].inline_data` of an outbound call. -/
def inlineData (c : OutboundCall) : Option JVal :=
  optProp (optIndex0 (optProp (optIndex0 (member c.body (utf16 "contents"))) (utf16 "parts")))
    (utf16 "inline_data")

/-- The text `t` wrapped in a fence with the language tag, each marker on its own line. -/
def fenced (t : JsString) : JsString :=
  utf16 "```json\n" ++ t ++ utf16 "\n```"

/-- The code unit of the backtick. -/
def tick : Nat := 96

/-- The text contains three consecutive backticks. -/
def hasFence (cs : JsString) : Prop :=
  fence <:+: cs

/-- A score between 0 and 100. -/
def isScore : JsNumber → Bool
  | .infinite _ => false
  | .finite negative m e =>
    (m == 0 || !negative)
      && (if 0 ≤ e then m * 2 ^ e.toNat ≤ 100 else m ≤ 100 * 2 ^ (-e).toNat)

/-- One of the three compatibility classes named by the prompt. -/
def isCompatibility : Option JVal → Bool
  | some (.str s) =>
    s == utf16 "compatible" || s == utf16 "incompatible" || s == utf16 "moderate"
  | _ => false

/-- One of the three dosha effects named by the prompt. -/
def isEffect : Option JVal → Bool
  | some (.str s) => s == utf16 "increases" || s == utf16 "decreases" || s == utf16 "neutral"
  | _ => false

/-- A JSON string, present. -/
def isText : Option JVal → Bool
  | some (.str _) => true
  | _ => false

/-- A JSON array of strings, present. -/
def isTextList : Option JVal → Bool
  | some (.arr xs) => xs.all isString
  | _ => false

/-- The shape of an analysis result as the prompt template of the handler documents it:
the ten fields with their kinds.  No code of the server checks it. -/
def isAnalysisResult (d : JVal) : Bool :=
  isObject d
    && isTextList (member d (utf16 "identified_foods"))
    && isCompatibility (member d (utf16 "compatibility"))
    && (match member d (utf16 "compatibility_score") with
        | some (.num x) => isScore x
        | _ => false)
    && isText (member d (utf16 "verdict_title"))
    && isText (member d (utf16 "verdict_subtitle"))
    && isEffect (optProp (member d (utf16 "dosha_effects")) (utf16 "vata"))
    && isEffect (optProp (member d (utf16 "dosha_effects")) (utf16 "pitta"))
    && isEffect (optProp (member d (utf16 "dosha_effects")) (utf16 "kapha"))
    && isText (member d (utf16 "dosha_notes"))
    && isText (member d (utf16 "ayurveda_analysis"))
    && isTextList (member d (utf16 "cautions"))
    && isTextList (member d (utf16 "suggestions"))

/-! ## Sample inputs -/

/-- An engine whose `SyntaxError` carries the same message for every input, for the
evaluations at concrete inputs; no statement below depends on the wording. -/
def sampleEngine : Engine :=
  { parseErrorMessage := fun _ => utf16 "Unexpected token in JSON"
    parseErrorMessage_ne := fun _ => by
      show utf16 "Unexpected token in JSON" ≠ []
      decide }

/-- A request body with an image and no media type. -/
def imageOnly : JVal :=
  .obj [(utf16 "imageBase64", .str (utf16 "aGk="))]

/-- An analysis result of the documented shape, as a JSON value. -/
def riceAndDal : JVal :=
  .obj
    [ (utf16 "identified_foods", .arr [.str (utf16 "rice"), .str (utf16 "dal")]),
      (utf16 "compatibility", .str (utf16 "compatible")),
      (utf16 "compatibility_score", .num (toDouble false 75 0)),
      (utf16 "verdict_title", .str (utf16 "A wholesome classic pairing")),
      (utf16 "verdict_subtitle", .str (utf16 "Rice and dal digest well together.")),
      (utf16 "dosha_effects", .obj
        [ (utf16 "vata", .str (utf16 "decreases")),
          (utf16 "pitta", .str (utf16 "neutral")),
          (utf16 "kapha", .str (utf16 "increases")) ]),
      (utf16 "dosha_notes", .str (utf16 "Grounding for vata.")),
      (utf16 "ayurveda_analysis", .str (utf16 "Eat warm food.")),
      (utf16 "cautions", .arr [.str (utf16 "Avoid cold water")]),
      (utf16 "suggestions", .arr [.str (utf16 "Add ghee"), .str (utf16 "Add cumin")]) ]

/-- A serialisation of `riceAndDal`. -/
def riceAndDalText : String :=
  "\x7b\"identified_foods\":[\"rice\",\"dal\"],\"compatibility\":\"compatible\",\"compatibi"
    ++ "lity_score\":75,\"verdict_title\":\"A wholesome classic pairing\",\"verdict_subtitle\":"
    ++ "\"Rice and dal digest well together.\",\"dosha_effects\":\x7b\"vata\":\"decreases\",\"pi"
    ++ "tta\":\"neutral\",\"kapha\":\"increases\"\x7d,\"dosha_notes\":\"Grounding for vata.\",\""
    ++ "ayurveda_analysis\":\"Eat warm food.\",\"cautions\":[\"Avoid cold water\"],\"suggestions"
    ++ "\":[\"Add ghee\",\"Add cumin\"]\x7d"

/-- An upstream reply whose generated text is `riceAndDalText` in a tagged fence. -/
def riceAndDalReply : String :=
  "\x7b\"candidates\":[\x7b\"content\":\x7b\"parts\":[\x7b\"text\":\"```json\\n\x7b\\\"iden"
    ++ "tified_foods\\\":[\\\"rice\\\",\\\"dal\\\"],\\\"compatibility\\\":\\\"compatible\\\",\\"
    ++ "\"compatibility_score\\\":75,\\\"verdict_title\\\":\\\"A wholesome classic pairing\\\","
    ++ "\\\"verdict_subtitle\\\":\\\"Rice and dal digest well together.\\\",\\\"dosha_effects\\"
    ++ "\":\x7b\\\"vata\\\":\\\"decreases\\\",\\\"pitta\\\":\\\"neutral\\\",\\\"kapha\\\":\\\"in"
    ++ "creases\\\"\x7d,\\\"dosha_notes\\\":\\\"Grounding for vata.\\\",\\\"ayurveda_analysis\\"
    ++ "\":\\\"Eat warm food.\\\",\\\"cautions\\\":[\\\"Avoid cold water\\\"],\\\"suggestions\\"
    ++ "\":[\\\"Add ghee\\\",\\\"Add cumin\\\"]\x7d\\n```\"\x7d]\x7d\x7d]\x7d"

/-- An analysis result of the documented shape, one of whose string fields holds three
consecutive backticks. -/
def warmFood : JVal :=
  .obj
    [ (utf16 "identified_foods", .arr [.str (utf16 "rice"), .str (utf16 "dal")]),
      (utf16 "compatibility", .str (utf16 "compatible")),
      (utf16 "compatibility_score", .num (toDouble false 75 0)),
      (utf16 "verdict_title", .str (utf16 "A wholesome classic pairing")),
      (utf16 "verdict_subtitle", .str (utf16 "Rice and dal digest well together.")),
      (utf16 "dosha_effects", .obj
        [ (utf16 "vata", .str (utf16 "decreases")),
          (utf16 "pitta", .str (utf16 "neutral")),
          (utf16 "kapha", .str (utf16 "increases")) ]),
      (utf16 "dosha_notes", .str (utf16 "Grounding for vata.")),
      (utf16 "ayurveda_analysis", .str (utf16 "Eat ```warm``` food.")),
      (utf16 "cautions", .arr [.str (utf16 "Avoid cold water")]),
      (utf16 "suggestions", .arr [.str (utf16 "Add ghee"), .str (utf16 "Add cumin")]) ]

/-- A serialisation of `warmFood`. -/
def warmFoodText : String :=
  "\x7b\"identified_foods\":[\"rice\",\"dal\"],\"compatibility\":\"compatible\",\"compatibi"
    ++ "lity_score\":75,\"verdict_title\":\"A wholesome classic pairing\",\"verdict_subtitle\":"
    ++ "\"Rice and dal digest well together.\",\"dosha_effects\":\x7b\"vata\":\"decreases\",\"pi"
    ++ "tta\":\"neutral\",\"kapha\":\"increases\"\x7d,\"dosha_notes\":\"Grounding for vata.\",\""
    ++ "ayurveda_analysis\":\"Eat ```warm``` food.\",\"cautions\":[\"Avoid cold water\"],\"sugge"
    ++ "stions\":[\"Add ghee\",\"Add cumin\"]\x7d"

/-- An upstream reply whose generated text is `warmFoodText` in a tagged fence. -/
def warmFoodReply : String :=
  "\x7b\"candidates\":[\x7b\"content\":\x7b\"parts\":[\x7b\"text\":\"```json\\n\x7b\\\"iden"
    ++ "tified_foods\\\":[\\\"rice\\\",\\\"dal\\\"],\\\"compatibility\\\":\\\"compatible\\\",\\"
    ++ "\"compatibility_score\\\":75,\\\"verdict_title\\\":\\\"A wholesome classic pairing\\\","
    ++ "\\\"verdict_subtitle\\\":\\\"Rice and dal digest well together.\\\",\\\"dosha_effects\\"
    ++ "\":\x7b\\\"vata\\\":\\\"decreases\\\",\\\"pitta\\\":\\\"neutral\\\",\\\"kapha\\\":\\\"in"
    ++ "creases\\\"\x7d,\\\"dosha_notes\\\":\\\"Grounding for vata.\\\",\\\"ayurveda_analysis\\"
    ++ "\":\\\"Eat ```warm``` food.\\\",\\\"cautions\\\":[\\\"Avoid cold water\\\"],\\\"suggesti"
    ++ "ons\\\":[\\\"Add ghee\\\",\\\"Add cumin\\\"]\x7d\\n```\"\x7d]\x7d\x7d]\x7d"

/-- A request body with an image and a media type that is the empty string. -/
def emptyMediaType : JVal :=
  .obj [(utf16 "imageBase64", .str (utf16 "aGk=")), (utf16 "mediaType", .str [])]

/-- The envelope of an upstream reply whose generated text is `text`. -/
def envelope (text : JsString) : JVal :=
  .obj [(utf16 "candidates", .arr [.obj [(utf16 "content", .obj [(utf16 "parts", .arr
    [.obj [(utf16 "text", .str text)]])])]])]

set_option maxRecDepth 1000000
set_option exponentiation.threshold 5000

/-! ## Basic facts about the handler -/

theorem wire_errorBody (v : JVal) : wire (errorBody v) = errorBody (wire v) := rfl

theorem resJson_error (status : Nat) (m : JsString) :
    resJson status (errorBody (.str m)) = { status := status, body := errorBody (.str m) } :=
  rfl

theorem destructure_of_ne_null {b : JVal} (h : b ≠ .null) :
    destructure b = .ok (member b (utf16 "imageBase64"), member b (utf16 "mediaType")) := by
  cases b <;> first | exact absurd rfl h | rfl

theorem ne_null_of_member {b : JVal} {k : JsString} {v : JVal} (h : member b k = some v) :
    b ≠ .null := by
  intro hb
  subst hb
  simp [member] at h

/-- The outcome of the handler once the credential and the image are there: exactly one
outbound call is made, and the response is decided by what `fetch` produces for it. -/
theorem analyze_of_image {key : String} {reqBody : JVal} {image : JVal}
    (engine : Engine) (upstream : Upstream) (hkey : key ≠ "")
    (himg : member reqBody (utf16 "imageBase64") = some image)
    (ht : truthy (some image) = true) :
    analyze engine (some key) reqBody upstream =
      { response :=
          match upstream (outboundCall key image (member reqBody (utf16 "mediaType"))) with
          | .failed m => catchBlock m
          | .response s address bodyText =>
            match relay engine address s bodyText with
            | .ok r => r
            | .error m => catchBlock m
        calls := [outboundCall key image (member reqBody (utf16 "mediaType"))] } := by
  have hd := destructure_of_ne_null (ne_null_of_member himg)
  simp only [analyze, hkey, if_false, tryBlock, hd, himg, ht, Bool.not_true]
  cases upstream (outboundCall key image (member reqBody (utf16 "mediaType"))) with
  | failed m => rfl
  | response s address bodyText =>
    simp only []
    cases relay engine address s bodyText <;> rfl

/-- The response of the handler once `fetch` has resolved with a response: the outcome of
the rest of the `try` block, passed through the `catch` block when it throws. -/
theorem analyze_of_response {key : String} {reqBody : JVal} {upstream : Upstream}
    {image : JVal} {s : Nat} {address bodyText : String}
    (engine : Engine) (hkey : key ≠ "")
    (himg : member reqBody (utf16 "imageBase64") = some image)
    (ht : truthy (some image) = true)
    (hup : upstream (outboundCall key image (member reqBody (utf16 "mediaType")))
      = .response s address bodyText) :
    analyze engine (some key) reqBody upstream =
      { response :=
          match relay engine address s bodyText with
          | .ok r => r
          | .error m => catchBlock m
        calls := [outboundCall key image (member reqBody (utf16 "mediaType"))] } := by
  rw [analyze_of_image engine upstream hkey himg ht]
  simp only [hup]

theorem status_ne_200_of_not_ok {s : Nat} (h : responseOk s = false) : s ≠ 200 := by
  intro hs
  subst hs
  simp [responseOk] at h

theorem parse_error_ne {engine : Engine} {s e : JsString}
    (h : JSON.parse engine s = .error e) : e ≠ [] := by
  unfold JSON.parse at h
  split at h
  · rw [← Except.error.inj h]
    exact engine.parseErrorMessage_ne s
  · split at h
    · exact absurd h (by simp)
    · rw [← Except.error.inj h]
      exact engine.parseErrorMessage_ne s

/-- A text that passes the test `if (!text)` after `|| ''` is the string that the
envelope carries, and it is not empty. -/
theorem text_of_truthy {t : Option JVal} {text : JsString}
    (hx : jsOr t (.str []) = .str text) (htr : truthy (some (jsOr t (.str []))) = true) :
    t = some (.str text) ∧ text ≠ [] := by
  cases t with
  | none => simp [jsOr, truthy] at htr
  | some x =>
    cases hv : truthy (some x) with
    | false =>
      simp only [jsOr, hv, Bool.false_eq_true, if_false] at htr
      simp [truthy] at htr
    | true =>
      simp only [jsOr, hv, if_true] at hx
      subst hx
      refine ⟨rfl, ?_⟩
      intro he
      subst he
      simp [truthy] at hv

/-- What the rest of the `try` block writes once `fetch` has resolved: status 200 with
what the cleaned text of the envelope parses to, or another status with a body
`{error: v}`, where `v` is a string unless it is the truthy `error.message` of a
non-success upstream reply. -/
theorem relay_shape (engine : Engine) (address : String) (s : Nat) (bodyText : String)
    (r : Response) (h : relay engine address s bodyText = .ok r) :
    (r.status = 200 ∧ responseOk s = true
        ∧ ∃ (data : JVal) (text : JsString) (result : JVal),
            JSON.parse engine (utf16 bodyText) = .ok data
              ∧ candidateText data = .ok (some (.str text))
              ∧ text ≠ []
              ∧ JSON.parse engine (clean text) = .ok result
              ∧ r.body = wire result)
      ∨ (r.status ≠ 200 ∧ ∃ v : JVal, r.body = errorBody v
          ∧ (isString v = true
            ∨ (responseOk s = false ∧ r.status = s
                ∧ ∃ (data w : JVal), JSON.parse engine (utf16 bodyText) = .ok data
                  ∧ errorMessage data = .ok (some w)
                  ∧ truthy (some w) = true
                  ∧ v = wire w))) := by
  unfold relay at h
  cases hj : JSON.parse engine (utf16 bodyText) with
  | error m => simp [responseJson, hj] at h
  | ok data =>
    simp only [responseJson, hj] at h
    cases hs : responseOk s with
    | false =>
      simp only [hs, Bool.not_false, if_true] at h
      cases he : errorMessage data with
      | error m => simp [he] at h
      | ok message =>
        simp only [he] at h
        have hr := (Except.ok.inj h).symm
        subst hr
        right
        refine ⟨status_ne_200_of_not_ok hs,
          wire (jsOr message (.str (utf16 "Gemini API error"))), rfl, ?_⟩
        cases message with
        | none => left; rfl
        | some w =>
          cases hv : truthy (some w) with
          | false =>
            left
            simp only [jsOr, hv, Bool.false_eq_true, if_false]
            rfl
          | true =>
            right
            have hjs : jsOr (some w) (.str (utf16 "Gemini API error")) = w := by
              simp [jsOr, hv]
            rw [hjs]
            exact ⟨rfl, rfl, data, w, rfl, he, hv, rfl⟩
    | true =>
      simp only [hs, Bool.not_true, if_false] at h
      cases hc : candidateText data with
      | error m => simp [hc] at h
      | ok t =>
        simp only [hc] at h
        cases htr : truthy (some (jsOr t (.str []))) with
        | false =>
          simp only [htr, Bool.not_false, if_true] at h
          have hr := (Except.ok.inj h).symm
          subst hr
          right
          exact ⟨by decide, _, rfl, Or.inl rfl⟩
        | true =>
          simp only [htr, Bool.not_true, if_false] at h
          cases hx : jsOr t (.str []) with
          | str text =>
            simp only [hx] at h
            obtain ⟨ht1, ht2⟩ := text_of_truthy hx htr
            cases hp : JSON.parse engine (clean text) with
            | error m => simp [hp] at h
            | ok result =>
              simp only [hp] at h
              have hr := (Except.ok.inj h).symm
              subst hr
              left
              exact ⟨rfl, rfl, data, text, result, rfl, by rw [hc, ht1], ht2, hp, rfl⟩
          | null => simp [hx] at h
          | bool b => simp [hx] at h
          | num x => simp [hx] at h
          | arr xs => simp [hx] at h
          | obj kvs => simp [hx] at h

theorem catchBlock_shape (m : JsString) :
    (catchBlock m).status ≠ 200
      ∧ ∃ v : JVal, (catchBlock m).body = errorBody v ∧ isString v = true :=
  ⟨by simp [catchBlock, resJson], _, rfl, rfl⟩

/-- With a credential and a body that is not `null`, a falsy `imageBase64` ends the
handler at the status 400, before any outbound call. -/
theorem missing_image_response (engine : Engine) (key : String) (reqBody : JVal)
    (upstream : Upstream) (hkey : key ≠ "") (hbody : reqBody ≠ .null)
    (himg : truthy (member reqBody (utf16 "imageBase64")) = false) :
    analyze engine (some key) reqBody upstream =
      { response :=
          { status := 400, body := errorBody (.str (utf16 "imageBase64 is required")) }
        calls := [] } := by
  have hd := destructure_of_ne_null hbody
  simp only [analyze, hkey, if_false, tryBlock, hd]
  cases hm : member reqBody (utf16 "imageBase64") with
  | none => rfl
  | some image =>
    rw [hm] at himg
    simp only [himg, Bool.not_false, if_true]
    rfl

/-- The inline image part of the outbound call: the media type of the request or the
default, and the image, both as `JSON.stringify` writes them. -/
theorem inlineData_outboundCall (key : String) (image : JVal) (mediaType : Option JVal) :
    inlineData (outboundCall key image mediaType)
      = some (.obj
          [ (utf16 "mime_type", wire (jsOr mediaType (.str (utf16 "image/jpeg")))),
            (utf16 "data", wire image) ]) :=
  rfl

/-- A falsy media type leaves the request object the one of the default. -/
theorem requestObject_of_falsy (image : JVal) (mediaType : Option JVal)
    (h : truthy mediaType = false) :
    requestObject image mediaType = requestObject image (some (.str (utf16 "image/jpeg"))) := by
  have hj : jsOr mediaType (.str (utf16 "image/jpeg"))
      = jsOr (some (.str (utf16 "image/jpeg"))) (.str (utf16 "image/jpeg")) := by
    cases mediaType with
    | none => rfl
    | some x =>
      simp only [jsOr, h, Bool.false_eq_true, if_false]
      rfl
  unfold requestObject
  rw [hj]

/-! ## Fence stripping -/

theorem fence_eq : fence = [tick, tick, tick] := by decide

theorem fenceJson_eq : fenceJson = tick :: tick :: tick :: utf16 "json" := by decide

theorem fence_prefix_of_fenceJson {cs : List Nat} (h : fenceJson.isPrefixOf cs = true) :
    fence.isPrefixOf cs = true := by
  rw [List.isPrefixOf_iff_prefix] at h ⊢
  have hp : fence <+: fenceJson := ⟨utf16 "json", by decide⟩
  exact hp.trans h

theorem stripFencesAux_fuel (n m : Nat) (cs : List Nat) (hn : cs.length ≤ n)
    (hm : cs.length ≤ m) : stripFencesAux n cs = stripFencesAux m cs := by
  induction n generalizing m cs with
  | zero =>
    have hcs : cs = [] := List.length_eq_zero.mp (Nat.le_zero.mp hn)
    subst hcs
    cases m <;> rfl
  | succ n ih =>
    cases cs with
    | nil => cases m <;> rfl
    | cons c r =>
      cases m with
      | zero => simp at hm
      | succ m =>
        simp only [List.length_cons] at hn hm
        simp only [stripFencesAux]
        split
        · exact ih m _ (by simp only [List.length_drop, List.length_cons]; omega)
            (by simp only [List.length_drop, List.length_cons]; omega)
        · split
          · exact ih m _ (by simp only [List.length_drop, List.length_cons]; omega)
              (by simp only [List.length_drop, List.length_cons]; omega)
          · rw [ih m r (by omega) (by omega)]

theorem stripFences_nil : stripFences [] = [] := rfl

theorem stripFences_fenceJson {cs : List Nat} (h : fenceJson.isPrefixOf cs = true) :
    stripFences cs = stripFences (cs.drop 7) := by
  cases cs with
  | nil => rfl
  | cons c r =>
    simp only [stripFences, List.length_cons, stripFencesAux, h, if_true]
    exact stripFencesAux_fuel _ _ _ (by simp only [List.length_drop, List.length_cons]; omega)
      (Nat.le_refl _)

theorem stripFences_fence {cs : List Nat} (hj : fenceJson.isPrefixOf cs = false)
    (h : fence.isPrefixOf cs = true) : stripFences cs = stripFences (cs.drop 3) := by
  cases cs with
  | nil => rfl
  | cons c r =>
    simp only [stripFences, List.length_cons, stripFencesAux, hj, h, if_true]
    exact stripFencesAux_fuel _ _ _ (by simp only [List.length_drop, List.length_cons]; omega)
      (Nat.le_refl _)

theorem stripFences_cons {c : Nat} {cs : List Nat}
    (h : fence.isPrefixOf (c :: cs) = false) :
    stripFences (c :: cs) = c :: stripFences cs := by
  have hj : fenceJson.isPrefixOf (c :: cs) = false := by
    cases hb : fenceJson.isPrefixOf (c :: cs) with
    | false => rfl
    | true => rw [fence_prefix_of_fenceJson hb] at h; exact absurd h (by decide)
  simp only [stripFences, List.length_cons, stripFencesAux, hj, h]
  simp only [Bool.false_eq_true, if_false]

theorem replicate_tick_prefix_fence {k : Nat} (hk : k ≤ 3) (r : List Nat) :
    List.replicate k tick <+: tick :: tick :: tick :: r := by
  have h3 : List.replicate k tick <+: [tick, tick, tick] := by
    interval_cases k
    · exact ⟨[tick, tick, tick], rfl⟩
    · exact ⟨[tick, tick], rfl⟩
    · exact ⟨[tick], rfl⟩
    · exact ⟨[], rfl⟩
  exact h3.trans ⟨r, rfl⟩

theorem fence_isPrefixOf_iff {cs : List Nat} :
    fence.isPrefixOf cs = true ↔ ∃ r, cs = tick :: tick :: tick :: r := by
  rw [List.isPrefixOf_iff_prefix, fence_eq]
  constructor
  · rintro ⟨r, hr⟩
    exact ⟨r, hr.symm⟩
  · rintro ⟨r, hr⟩
    exact ⟨r, hr.symm⟩

/-- Leading backticks of the stripped text were leading backticks of the text. -/
theorem ticks_prefix_of_stripFences (n : Nat) :
    ∀ (k : Nat) (cs : List Nat), k ≤ 3 → cs.length ≤ n →
      List.replicate k tick <+: stripFences cs → List.replicate k tick <+: cs := by
  induction n with
  | zero =>
    intro k cs _ hn h
    have hcs : cs = [] := List.length_eq_zero.mp (Nat.le_zero.mp hn)
    subst hcs
    exact h
  | succ n ih =>
    intro k cs hk hn h
    cases cs with
    | nil => exact h
    | cons c r =>
      cases hf : fence.isPrefixOf (c :: r) with
      | true =>
        obtain ⟨r1, hr1⟩ := fence_isPrefixOf_iff.mp hf
        rw [hr1]
        exact replicate_tick_prefix_fence hk r1
      | false =>
        rw [stripFences_cons hf] at h
        cases k with
        | zero => exact List.nil_prefix
        | succ k =>
          rw [List.replicate_succ, List.cons_prefix_cons] at h ⊢
          refine ⟨h.1, ih k r (by omega) ?_ h.2⟩
          simp only [List.length_cons] at hn
          omega

/-- The stripped text contains no fence: removals never join leftover backticks. -/
theorem not_hasFence_stripFences_aux (n : Nat) :
    ∀ cs : List Nat, cs.length ≤ n → ¬ hasFence (stripFences cs) := by
  induction n with
  | zero =>
    intro cs hn h
    have hcs : cs = [] := List.length_eq_zero.mp (Nat.le_zero.mp hn)
    subst hcs
    rw [stripFences_nil, hasFence, List.infix_nil, fence_eq] at h
    exact absurd h (by simp)
  | succ n ih =>
    intro cs hn h
    cases cs with
    | nil =>
      rw [stripFences_nil, hasFence, List.infix_nil, fence_eq] at h
      exact absurd h (by simp)
    | cons c r =>
      simp only [List.length_cons] at hn
      cases hj : fenceJson.isPrefixOf (c :: r) with
      | true =>
        rw [stripFences_fenceJson hj] at h
        exact ih _ (by simp only [List.length_drop, List.length_cons]; omega) h
      | false =>
        cases hf : fence.isPrefixOf (c :: r) with
        | true =>
          rw [stripFences_fence hj hf] at h
          exact ih _ (by simp only [List.length_drop, List.length_cons]; omega) h
        | false =>
          rw [stripFences_cons hf, hasFence, List.infix_cons_iff] at h
          rcases h with h | h
          · rw [fence_eq, List.cons_prefix_cons] at h
            have h2 : List.replicate 2 tick <+: r :=
              ticks_prefix_of_stripFences r.length 2 r (by decide) (Nat.le_refl _) h.2
            have h3 : fence.isPrefixOf (c :: r) = true := by
              rw [List.isPrefixOf_iff_prefix, fence_eq, ← h.1, List.cons_prefix_cons]
              exact ⟨rfl, h2⟩
            rw [hf] at h3
            exact absurd h3 (by decide)
          · exact ih r (by omega) h

theorem not_hasFence_stripFences (cs : List Nat) : ¬ hasFence (stripFences cs) :=
  not_hasFence_stripFences_aux cs.length cs (Nat.le_refl _)

/-- A text without a fence is left as it is. -/
theorem stripFences_of_not_hasFence (cs : List Nat) (h : ¬ hasFence cs) :
    stripFences cs = cs := by
  induction cs with
  | nil => rfl
  | cons c r ih =>
    have hf : fence.isPrefixOf (c :: r) = false := by
      cases hb : fence.isPrefixOf (c :: r) with
      | false => rfl
      | true =>
        exact absurd (List.IsPrefix.isInfix (List.isPrefixOf_iff_prefix.mp hb)) h
    rw [stripFences_cons hf, ih (fun hr => h (List.infix_cons hr))]

/-! ## Trimming -/

theorem trimEnd_eq_rdropWhile (cs : List Nat) :
    trimEnd cs = cs.rdropWhile isJsWhitespace := rfl

theorem jsTrim_isInfix_self (cs : List Nat) : jsTrim cs <:+: cs := by
  unfold jsTrim
  rw [trimEnd_eq_rdropWhile]
  exact (List.rdropWhile_prefix isJsWhitespace _).isInfix.trans
    (List.dropWhile_suffix isJsWhitespace).isInfix

theorem dropWhile_trimEnd_of_dropWhile_eq {cs : List Nat}
    (h : cs.dropWhile isJsWhitespace = cs) :
    (trimEnd cs).dropWhile isJsWhitespace = trimEnd cs := by
  cases cs with
  | nil => rfl
  | cons a l =>
    have ha : ¬ isJsWhitespace a = true := by
      intro hp
      rw [List.dropWhile_cons_of_pos hp] at h
      have hlen := (List.dropWhile_suffix isJsWhitespace (l := l)).length_le
      rw [h] at hlen
      simp at hlen
    have hpre : trimEnd (a :: l) <+: a :: l := by
      rw [trimEnd_eq_rdropWhile]
      exact List.rdropWhile_prefix isJsWhitespace _
    cases ht : trimEnd (a :: l) with
    | nil => rfl
    | cons b m =>
      rw [ht, List.cons_prefix_cons] at hpre
      rw [hpre.1]
      exact List.dropWhile_cons_of_neg ha

theorem jsTrim_idempotent (cs : List Nat) : jsTrim (jsTrim cs) = jsTrim cs := by
  unfold jsTrim
  rw [dropWhile_trimEnd_of_dropWhile_eq (List.dropWhile_idempotent _ _)]
  rw [trimEnd_eq_rdropWhile, trimEnd_eq_rdropWhile, List.rdropWhile_idempotent]

/-- Whitespace around a text does not survive trimming. -/
theorem jsTrim_wrapped (a b : Nat) (t : List Nat) (ha : isJsWhitespace a = true)
    (hb : isJsWhitespace b = true) : jsTrim (a :: (t ++ [b])) = jsTrim t := by
  unfold jsTrim
  rw [List.dropWhile_cons_of_pos ha, List.dropWhile_append]
  cases hd : List.dropWhile isJsWhitespace t with
  | nil =>
    simp only [List.isEmpty_nil, if_true]
    rw [List.dropWhile_cons_of_pos hb]
    rfl
  | cons x m =>
    simp only [List.isEmpty_cons, Bool.false_eq_true, if_false]
    rw [trimEnd_eq_rdropWhile, trimEnd_eq_rdropWhile, List.rdropWhile_concat_pos _ _ _ hb]

/-! ## Lexical analysis and trailing whitespace -/

theorem ws_toNat {c : Nat} (h : isJsWhitespace c = true) :
    (9 ≤ c ∧ c ≤ 13) ∨ c = 32 ∨ 160 ≤ c := by
  simp only [isJsWhitespace, Bool.or_eq_true, beq_iff_eq, Bool.and_eq_true, decide_eq_true_eq] at h
  omega

theorem ws_not_digit {c : Nat} (h : isJsWhitespace c = true) : isDigit c = false := by
  have := ws_toNat h
  simp only [isDigit, Bool.and_eq_false_iff, decide_eq_false_iff_not]
  omega

theorem ws_toNat_ne {c : Nat} (h : isJsWhitespace c = true) (k : Nat) (hk : 33 ≤ k)
    (hk2 : k < 160) : (c == k) = false := by
  have := ws_toNat h
  rw [beq_eq_false_iff_ne]
  omega

theorem ws_hexVal {c : Nat} (h : isJsWhitespace c = true) : hexVal c = none := by
  have h0 := ws_toNat h
  have e1 : (decide (48 ≤ c) && decide (c ≤ 57)) = false := by
    simp only [Bool.and_eq_false_iff, decide_eq_false_iff_not]; omega
  have e2 : (decide (65 ≤ c) && decide (c ≤ 70)) = false := by
    simp only [Bool.and_eq_false_iff, decide_eq_false_iff_not]; omega
  have e3 : (decide (97 ≤ c) && decide (c ≤ 102)) = false := by
    simp only [Bool.and_eq_false_iff, decide_eq_false_iff_not]; omega
  simp only [hexVal, e1, e2, e3, Bool.false_eq_true, if_false]

theorem ws_unescape {c : Nat} (h : isJsWhitespace c = true) : unescape c = none := by
  simp only [unescape, ws_toNat_ne h 34 (by decide) (by decide),
    ws_toNat_ne h 92 (by decide) (by decide), ws_toNat_ne h 47 (by decide) (by decide),
    ws_toNat_ne h 98 (by decide) (by decide), ws_toNat_ne h 102 (by decide) (by decide),
    ws_toNat_ne h 110 (by decide) (by decide), ws_toNat_ne h 114 (by decide) (by decide),
    ws_toNat_ne h 116 (by decide) (by decide), Bool.or_self, Bool.false_eq_true, if_false]

theorem isPrefixOf_cons_of_toNat_ne {a c : Nat} (l r : List Nat) (h : a ≠ c) :
    (a :: l).isPrefixOf (c :: r) = false := by
  have hne : a ≠ c := h
  simp only [List.isPrefixOf, beq_eq_false_iff_ne.mpr hne, Bool.false_and]

theorem ws_literal {c : Nat} (h : isJsWhitespace c = true) (a : Nat) (l cs : List Nat)
    (ha : 33 ≤ a) (ha2 : a < 160) : (a :: l).isPrefixOf (c :: cs) = false := by
  have := ws_toNat h
  exact isPrefixOf_cons_of_toNat_ne l cs (by omega)

theorem ws_lexToken {c : Nat} (h : isJsWhitespace c = true) (cs : List Nat) :
    lexToken c cs = none := by
  have e9 : trueChars.isPrefixOf (c :: cs) = false :=
    ws_literal h _ (utf16 "rue") cs (by decide) (by decide)
  have e10 : falseChars.isPrefixOf (c :: cs) = false :=
    ws_literal h _ (utf16 "alse") cs (by decide) (by decide)
  have e11 : nullChars.isPrefixOf (c :: cs) = false :=
    ws_literal h _ (utf16 "ull") cs (by decide) (by decide)
  simp only [lexToken, ws_toNat_ne h 123 (by decide) (by decide),
    ws_toNat_ne h 125 (by decide) (by decide), ws_toNat_ne h 91 (by decide) (by decide),
    ws_toNat_ne h 93 (by decide) (by decide), ws_toNat_ne h 44 (by decide) (by decide),
    ws_toNat_ne h 58 (by decide) (by decide), ws_toNat_ne h 34 (by decide) (by decide),
    ws_toNat_ne h 45 (by decide) (by decide), ws_not_digit h, e9, e10, e11,
    Bool.or_self, Bool.false_eq_true, if_false]

theorem lexString_length (cs : List Nat) :
    ∀ p : List Nat × List Nat, lexString cs = some p → p.2.length < cs.length := by
  induction cs using lexString.induct with
  | case1 => intro p h; simp [lexString] at h
  | case2 e cs1 hq =>
    intro p h
    unfold lexString at h
    simp only [hq, if_true] at h
    cases h
    simp
  | case3 e hq hb =>
    intro p h
    unfold lexString at h
    simp [hq, hb] at h
  | case4 e hq hb u hu h1 h2 h3 h4 rest a b x d hd hx hb2 ha ih =>
    intro p h
    unfold lexString at h
    simp only [hq, hb, hu, ha, hb2, hx, hd, if_true, if_false, Bool.false_eq_true] at h
    cases hl : lexString rest with
    | none => rw [hl] at h; exact absurd h (by simp)
    | some q =>
      rw [hl] at h
      simp only [Option.map_some', Option.some.injEq] at h
      have := ih q hl
      subst h
      simp only [List.length_cons]
      omega
  | case5 e hq hb u hu h1 h2 h3 h4 rest hno =>
    intro p h
    unfold lexString at h
    simp only [hq, hb, hu, if_true, if_false, Bool.false_eq_true] at h
    cases e1 : hexVal h1 <;> cases e2 : hexVal h2 <;> cases e3 : hexVal h3 <;>
      cases e4 : hexVal h4 <;>
      first
        | exact absurd (hno _ _ _ _ e1 e2 e3 e4) id
        | exact absurd h (by simp)
  | case6 e hq hb u cs1 hu hno =>
    intro p h
    unfold lexString at h
    simp only [hq, hb, hu, if_true, if_false, Bool.false_eq_true] at h
    rcases cs1 with _ | ⟨a, _ | ⟨b, _ | ⟨c, _ | ⟨d, r⟩⟩⟩⟩ <;>
      first
        | exact absurd h (by simp)
  | case7 e hq hb u cs1 hu ch hch ih =>
    intro p h
    unfold lexString at h
    simp only [hq, hb, hu, hch, if_true, if_false, Bool.false_eq_true] at h
    cases hl : lexString cs1 with
    | none => rw [hl] at h; exact absurd h (by simp)
    | some q =>
      rw [hl] at h
      simp only [Option.map_some', Option.some.injEq] at h
      have := ih q hl
      subst h
      simp only [List.length_cons]
      omega
  | case8 e hq hb u cs1 hu hch =>
    intro p h
    unfold lexString at h
    simp [hq, hb, hu, hch] at h
  | case9 e cs1 hq hb hlt =>
    intro p h
    unfold lexString at h
    simp [hq, hb, hlt] at h
  | case10 e cs1 hq hb hlt ih =>
    intro p h
    unfold lexString at h
    simp only [hq, hb, hlt, if_false, Bool.false_eq_true] at h
    cases hl : lexString cs1 with
    | none => rw [hl] at h; exact absurd h (by simp)
    | some q =>
      rw [hl] at h
      simp only [Option.map_some', Option.some.injEq] at h
      have := ih q hl
      subst h
      simp only [List.length_cons]
      omega

theorem lexString_ws (tail : List Nat) (htail : ∀ c ∈ tail, isJsWhitespace c = true) :
    lexString tail = none := by
  induction tail with
  | nil => rfl
  | cons w tl ih =>
    have hw := htail w (List.mem_cons_self _ _)
    unfold lexString
    simp only [ws_toNat_ne hw 34 (by decide) (by decide),
      ws_toNat_ne hw 92 (by decide) (by decide), Bool.false_eq_true, if_false,
      ih (fun c hc => htail c (List.mem_cons_of_mem _ hc)), Option.map_none', ite_self]

theorem lexString_unicode_none (e u : Nat) (l : List Nat)
    (hq : ¬(e == 34) = true) (hb : (e == 92) = true)
    (hu : (u == 117) = true)
    (hbad : ∀ h1 h2 h3 h4 rest, l = h1 :: h2 :: h3 :: h4 :: rest →
      hexVal h1 = none ∨ hexVal h2 = none ∨ hexVal h3 = none ∨ hexVal h4 = none) :
    lexString (e :: u :: l) = none := by
  unfold lexString
  simp only [hq, hb, hu, if_true, if_false, Bool.false_eq_true]
  rcases l with _ | ⟨a, _ | ⟨b, _ | ⟨c, _ | ⟨d, r⟩⟩⟩⟩
  · rfl
  · rfl
  · rfl
  · rfl
  · have hb4 := hbad a b c d r rfl
    cases e1 : hexVal a <;> cases e2 : hexVal b <;> cases e3 : hexVal c <;>
      cases e4 : hexVal d <;>
      simp only [e1, e2, e3, e4, reduceCtorEq, or_self, or_false, false_or, or_true,
        true_or] at hb4 ⊢

theorem lexString_tail (tail : List Nat) (htail : ∀ c ∈ tail, isJsWhitespace c = true)
    (cs : List Nat) :
    ∀ p : List Nat × List Nat, lexString (cs ++ tail) = some p →
      ∃ rest0, p.2 = rest0 ++ tail ∧ lexString cs = some (p.1, rest0) := by
  induction cs using lexString.induct with
  | case1 =>
    intro p h
    rw [List.nil_append, lexString_ws tail htail] at h
    exact absurd h (by simp)
  | case2 e cs1 hq =>
    intro p h
    rw [List.cons_append] at h
    unfold lexString at h
    simp only [hq, if_true, Option.some.injEq] at h
    subst h
    refine ⟨cs1, rfl, ?_⟩
    unfold lexString
    simp only [hq, if_true]
  | case3 e hq hb =>
    intro p h
    rw [List.cons_append, List.nil_append] at h
    unfold lexString at h
    simp only [hq, hb, if_true, if_false, Bool.false_eq_true] at h
    cases tail with
    | nil => exact absurd h (by simp)
    | cons w tl =>
      have hw := htail w (List.mem_cons_self _ _)
      simp only [ws_toNat_ne hw 117 (by decide) (by decide), ws_unescape hw,
        Bool.false_eq_true, if_false] at h
      exact absurd h (by simp)
  | case4 e hq hb u hu h1 h2 h3 h4 rest a b x d hd hx hb2 ha ih =>
    intro p h
    simp only [List.cons_append] at h
    unfold lexString at h
    simp only [hq, hb, hu, ha, hb2, hx, hd, if_true, if_false, Bool.false_eq_true] at h
    cases hl : lexString (rest ++ tail) with
    | none => rw [hl] at h; exact absurd h (by simp)
    | some q =>
      rw [hl] at h
      simp only [Option.map_some', Option.some.injEq] at h
      obtain ⟨rest0, hr1, hr2⟩ := ih q hl
      subst h
      refine ⟨rest0, hr1, ?_⟩
      unfold lexString
      simp only [hq, hb, hu, ha, hb2, hx, hd, if_true, if_false, Bool.false_eq_true, hr2,
        Option.map_some']
  | case5 e hq hb u hu h1 h2 h3 h4 rest hno =>
    intro p h
    simp only [List.cons_append] at h
    unfold lexString at h
    simp only [hq, hb, hu, if_true, if_false, Bool.false_eq_true] at h
    cases e1 : hexVal h1 <;> cases e2 : hexVal h2 <;> cases e3 : hexVal h3 <;>
      cases e4 : hexVal h4 <;>
      first
        | exact absurd (hno _ _ _ _ e1 e2 e3 e4) id
        | exact absurd h (by simp)
  | case6 e hq hb u cs1 hu hno =>
    intro p h
    simp only [List.cons_append] at h
    rw [lexString_unicode_none e u (cs1 ++ tail) hq hb hu] at h
    · exact absurd h (by simp)
    · intro h1 h2 h3 h4 rest heq
      rcases cs1 with _ | ⟨a, _ | ⟨b, _ | ⟨c, _ | ⟨d, r⟩⟩⟩⟩
      · rw [List.nil_append] at heq
        exact Or.inl (ws_hexVal (htail h1 (by rw [heq]; exact List.mem_cons_self _ _)))
      · simp only [List.cons_append, List.nil_append, List.cons.injEq] at heq
        exact Or.inr (Or.inl (ws_hexVal (htail h2 (by rw [heq.2]; exact List.mem_cons_self _ _))))
      · simp only [List.cons_append, List.nil_append, List.cons.injEq] at heq
        exact Or.inr (Or.inr (Or.inl
          (ws_hexVal (htail h3 (by rw [heq.2.2]; exact List.mem_cons_self _ _)))))
      · simp only [List.cons_append, List.nil_append, List.cons.injEq] at heq
        exact Or.inr (Or.inr (Or.inr
          (ws_hexVal (htail h4 (by rw [heq.2.2.2]; exact List.mem_cons_self _ _)))))
      · exact absurd (hno a b c d r rfl) id
  | case7 e hq hb u cs1 hu ch hch ih =>
    intro p h
    simp only [List.cons_append] at h
    unfold lexString at h
    simp only [hq, hb, hu, hch, if_true, if_false, Bool.false_eq_true] at h
    cases hl : lexString (cs1 ++ tail) with
    | none => rw [hl] at h; exact absurd h (by simp)
    | some q =>
      rw [hl] at h
      simp only [Option.map_some', Option.some.injEq] at h
      obtain ⟨rest0, hr1, hr2⟩ := ih q hl
      subst h
      refine ⟨rest0, hr1, ?_⟩
      unfold lexString
      simp only [hq, hb, hu, hch, if_true, if_false, Bool.false_eq_true, hr2, Option.map_some']
  | case8 e hq hb u cs1 hu hch =>
    intro p h
    simp only [List.cons_append] at h
    unfold lexString at h
    simp [hq, hb, hu, hch] at h
  | case9 e cs1 hq hb hlt =>
    intro p h
    simp only [List.cons_append] at h
    unfold lexString at h
    simp [hq, hb, hlt] at h
  | case10 e cs1 hq hb hlt ih =>
    intro p h
    simp only [List.cons_append] at h
    unfold lexString at h
    simp only [hq, hb, hlt, if_false, Bool.false_eq_true] at h
    cases hl : lexString (cs1 ++ tail) with
    | none => rw [hl] at h; exact absurd h (by simp)
    | some q =>
      rw [hl] at h
      simp only [Option.map_some', Option.some.injEq] at h
      obtain ⟨rest0, hr1, hr2⟩ := ih q hl
      subst h
      refine ⟨rest0, hr1, ?_⟩
      unfold lexString
      simp only [hq, hb, hlt, if_false, Bool.false_eq_true, hr2, Option.map_some']

theorem takeWhile_digit_ws (tail : List Nat) (htail : ∀ c ∈ tail, isJsWhitespace c = true) :
    tail.takeWhile isDigit = [] := by
  cases tail with
  | nil => rfl
  | cons w tl =>
    have hw := ws_not_digit (htail w (List.mem_cons_self _ _))
    rw [List.takeWhile_cons, hw]
    rfl

theorem dropWhile_digit_ws (tail : List Nat) (htail : ∀ c ∈ tail, isJsWhitespace c = true) :
    tail.dropWhile isDigit = tail := by
  cases tail with
  | nil => rfl
  | cons w tl =>
    have hw := ws_not_digit (htail w (List.mem_cons_self _ _))
    rw [List.dropWhile_cons, hw]
    rfl

theorem takeWhile_digit_append (tail : List Nat)
    (htail : ∀ c ∈ tail, isJsWhitespace c = true) (cs : List Nat) :
    (cs ++ tail).takeWhile isDigit = cs.takeWhile isDigit := by
  induction cs with
  | nil => rw [List.nil_append, takeWhile_digit_ws tail htail]; rfl
  | cons c r ih =>
    rw [List.cons_append, List.takeWhile_cons, List.takeWhile_cons, ih]

theorem dropWhile_digit_append (tail : List Nat)
    (htail : ∀ c ∈ tail, isJsWhitespace c = true) (cs : List Nat) :
    (cs ++ tail).dropWhile isDigit = cs.dropWhile isDigit ++ tail := by
  induction cs with
  | nil => rw [List.nil_append, dropWhile_digit_ws tail htail]; rfl
  | cons c r ih =>
    rw [List.cons_append, List.dropWhile_cons, List.dropWhile_cons, ih]
    split <;> rfl

theorem dropWhile_length_le (p : Nat → Bool) (cs : List Nat) :
    (cs.dropWhile p).length ≤ cs.length :=
  (List.dropWhile_suffix p).length_le

theorem dropWhile_length_lt (p : Nat → Bool) (cs : List Nat)
    (h : (cs.takeWhile p).isEmpty = false) : (cs.dropWhile p).length < cs.length := by
  cases cs with
  | nil => simp at h
  | cons c r =>
    rw [List.takeWhile_cons] at h
    rw [List.dropWhile_cons]
    cases hp : p c with
    | false => simp [hp] at h
    | true =>
      simp only [if_true]
      have := dropWhile_length_le p r
      simp only [List.length_cons]
      omega

theorem lexFrac_length (cs : List Nat) (p : List Nat × List Nat)
    (h : lexFrac cs = some p) : p.2.length ≤ cs.length := by
  unfold lexFrac at h
  cases cs with
  | nil =>
    simp only [Option.some.injEq] at h
    subst h
    exact Nat.le_refl _
  | cons c r =>
    simp only at h
    split at h
    · split at h
      · exact absurd h (by simp)
      · simp only [Option.some.injEq] at h
        subst h
        have := dropWhile_length_le isDigit r
        simp only [List.length_cons]
        omega
    · simp only [Option.some.injEq] at h
      subst h
      exact Nat.le_refl _

theorem lexFrac_tail (tail : List Nat) (htail : ∀ c ∈ tail, isJsWhitespace c = true)
    (cs : List Nat) (p : List Nat × List Nat) (h : lexFrac (cs ++ tail) = some p) :
    ∃ rest0, p.2 = rest0 ++ tail ∧ lexFrac cs = some (p.1, rest0) := by
  cases cs with
  | nil =>
    rw [List.nil_append] at h
    cases tail with
    | nil =>
      simp only [lexFrac, Option.some.injEq] at h
      subst h
      exact ⟨[], rfl, rfl⟩
    | cons w tl =>
      have hw := htail w (List.mem_cons_self _ _)
      simp only [lexFrac, ws_toNat_ne hw 46 (by decide) (by decide), Bool.false_eq_true,
        if_false, Option.some.injEq] at h
      subst h
      exact ⟨[], rfl, rfl⟩
  | cons c r =>
    rw [List.cons_append] at h
    simp only [lexFrac, takeWhile_digit_append tail htail,
      dropWhile_digit_append tail htail] at h ⊢
    split at h
    · split at h
      · exact absurd h (by simp)
      · rename_i h1 h2
        simp only [Option.some.injEq] at h
        subst h
        refine ⟨r.dropWhile isDigit, rfl, ?_⟩
        simp only [h1, h2, if_true, if_false, Bool.false_eq_true]
    · rename_i h1
      simp only [Option.some.injEq] at h
      subst h
      refine ⟨c :: r, rfl, ?_⟩
      simp only [h1, if_false, Bool.false_eq_true]

theorem lexExpDigits_length (b : Bool) (cs : List Nat) (p : Int × List Nat)
    (h : lexExpDigits b cs = some p) : p.2.length < cs.length := by
  unfold lexExpDigits at h
  split at h
  · exact absurd h (by simp)
  · rename_i h1
    simp only [Option.some.injEq] at h
    subst h
    exact dropWhile_length_lt isDigit cs (by simpa using h1)

theorem lexExpDigits_tail (tail : List Nat) (htail : ∀ c ∈ tail, isJsWhitespace c = true)
    (b : Bool) (cs : List Nat) (p : Int × List Nat)
    (h : lexExpDigits b (cs ++ tail) = some p) :
    ∃ rest0, p.2 = rest0 ++ tail ∧ lexExpDigits b cs = some (p.1, rest0) := by
  simp only [lexExpDigits, takeWhile_digit_append tail htail,
    dropWhile_digit_append tail htail] at h ⊢
  split at h
  · exact absurd h (by simp)
  · rename_i h1
    simp only [Option.some.injEq] at h
    subst h
    refine ⟨cs.dropWhile isDigit, rfl, ?_⟩
    simp only [h1, if_false, Bool.false_eq_true]

theorem lexExpDigits_ws (tail : List Nat) (htail : ∀ c ∈ tail, isJsWhitespace c = true)
    (b : Bool) : lexExpDigits b tail = none := by
  simp only [lexExpDigits, takeWhile_digit_ws tail htail, List.isEmpty_nil, if_true]

theorem lexExp_length (cs : List Nat) (p : Int × List Nat)
    (h : lexExp cs = some p) : p.2.length ≤ cs.length := by
  unfold lexExp at h
  cases cs with
  | nil =>
    simp only [Option.some.injEq] at h
    subst h
    exact Nat.le_refl _
  | cons c r =>
    simp only at h
    split at h
    · cases r with
      | nil => exact absurd h (by simp)
      | cons s r1 =>
        simp only at h
        split at h
        · have := lexExpDigits_length _ _ _ h
          simp only [List.length_cons]
          omega
        · split at h
          · have := lexExpDigits_length _ _ _ h
            simp only [List.length_cons]
            omega
          · have := lexExpDigits_length _ _ _ h
            simp only [List.length_cons] at this ⊢
            omega
    · simp only [Option.some.injEq] at h
      subst h
      exact Nat.le_refl _

theorem lexExp_tail (tail : List Nat) (htail : ∀ c ∈ tail, isJsWhitespace c = true)
    (cs : List Nat) (p : Int × List Nat) (h : lexExp (cs ++ tail) = some p) :
    ∃ rest0, p.2 = rest0 ++ tail ∧ lexExp cs = some (p.1, rest0) := by
  cases cs with
  | nil =>
    rw [List.nil_append] at h
    cases tail with
    | nil =>
      simp only [lexExp, Option.some.injEq] at h
      subst h
      exact ⟨[], rfl, rfl⟩
    | cons w tl =>
      have hw := htail w (List.mem_cons_self _ _)
      simp only [lexExp, ws_toNat_ne hw 101 (by decide) (by decide),
        ws_toNat_ne hw 69 (by decide) (by decide), Bool.or_self, Bool.false_eq_true,
        if_false, Option.some.injEq] at h
      subst h
      exact ⟨[], rfl, rfl⟩
  | cons c r =>
    rw [List.cons_append] at h
    unfold lexExp at h ⊢
    simp only at h ⊢
    split at h
    · rename_i h1
      simp only [h1, if_true]
      cases r with
      | nil =>
        rw [List.nil_append] at h
        cases tail with
        | nil => exact absurd h (by simp)
        | cons w tl =>
          have hw := htail w (List.mem_cons_self _ _)
          simp only [ws_toNat_ne hw 43 (by decide) (by decide),
            ws_toNat_ne hw 45 (by decide) (by decide), Bool.false_eq_true, if_false,
            lexExpDigits_ws (w :: tl) htail] at h
          exact absurd h (by simp)
      | cons s r1 =>
        rw [List.cons_append] at h
        simp only at h ⊢
        split at h
        · rename_i h2
          simp only [h2, if_true]
          exact lexExpDigits_tail tail htail _ r1 p h
        · rename_i h2
          split at h
          · rename_i h3
            simp only [h2, h3, if_true, if_false, Bool.false_eq_true]
            exact lexExpDigits_tail tail htail _ r1 p h
          · rename_i h3
            simp only [h2, h3, if_false, Bool.false_eq_true]
            exact lexExpDigits_tail tail htail _ (s :: r1) p h
    · rename_i h1
      simp only [Option.some.injEq] at h
      subst h
      refine ⟨c :: r, rfl, ?_⟩
      simp only [h1, if_false, Bool.false_eq_true]

theorem lexUnsigned_length (b : Bool) (cs : List Nat) (p : (Bool × Nat × Int) × List Nat)
    (h : lexUnsigned b cs = some p) : p.2.length < cs.length := by
  unfold lexUnsigned at h
  simp only at h
  split at h
  · exact absurd h (by simp)
  · rename_i h1
    split at h
    · exact absurd h (by simp)
    · cases hf : lexFrac (cs.dropWhile isDigit) with
      | none => rw [hf] at h; exact absurd h (by simp)
      | some q =>
        obtain ⟨fp, cs3⟩ := q
        rw [hf] at h
        simp only at h
        cases he : lexExp cs3 with
        | none => rw [he] at h; exact absurd h (by simp)
        | some q2 =>
          obtain ⟨ex, cs4⟩ := q2
          rw [he] at h
          simp only [Option.some.injEq] at h
          subst h
          have l1 := lexFrac_length _ _ hf
          have l2 := lexExp_length _ _ he
          have l3 := dropWhile_length_lt isDigit cs (by simpa using h1)
          simp only at l1 l2 ⊢
          omega

theorem lexUnsigned_tail (tail : List Nat) (htail : ∀ c ∈ tail, isJsWhitespace c = true)
    (b : Bool) (cs : List Nat) (p : (Bool × Nat × Int) × List Nat)
    (h : lexUnsigned b (cs ++ tail) = some p) :
    ∃ rest0, p.2 = rest0 ++ tail ∧ lexUnsigned b cs = some (p.1, rest0) := by
  simp only [lexUnsigned, takeWhile_digit_append tail htail,
    dropWhile_digit_append tail htail] at h ⊢
  split at h
  · exact absurd h (by simp)
  · rename_i h1
    split at h
    · exact absurd h (by simp)
    · rename_i h2
      simp only [h1, h2, if_false, Bool.false_eq_true]
      cases hf : lexFrac (cs.dropWhile isDigit ++ tail) with
      | none => rw [hf] at h; exact absurd h (by simp)
      | some q =>
        obtain ⟨fp, cs3⟩ := q
        rw [hf] at h
        simp only at h
        obtain ⟨cs30, e1, e2⟩ := lexFrac_tail tail htail _ _ hf
        simp only at e1 e2
        subst e1
        cases he : lexExp (cs30 ++ tail) with
        | none => rw [he] at h; exact absurd h (by simp)
        | some q2 =>
          obtain ⟨ex, cs4⟩ := q2
          rw [he] at h
          simp only [Option.some.injEq] at h
          obtain ⟨cs40, e3, e4⟩ := lexExp_tail tail htail _ _ he
          simp only at e3 e4
          subst e3
          subst h
          refine ⟨cs40, rfl, ?_⟩
          simp only [e2, e4]

theorem lexUnsigned_ws (tail : List Nat) (htail : ∀ c ∈ tail, isJsWhitespace c = true)
    (b : Bool) : lexUnsigned b tail = none := by
  simp only [lexUnsigned, takeWhile_digit_ws tail htail, List.isEmpty_nil, if_true]

theorem lexNumber_length (cs : List Nat) (p : (Bool × Nat × Int) × List Nat)
    (h : lexNumber cs = some p) : p.2.length < cs.length := by
  unfold lexNumber at h
  cases cs with
  | nil => exact absurd h (by simp)
  | cons c r =>
    simp only at h
    split at h
    · have := lexUnsigned_length _ _ _ h
      simp only [List.length_cons]
      omega
    · exact lexUnsigned_length _ _ _ h

theorem lexNumber_tail (tail : List Nat) (htail : ∀ c ∈ tail, isJsWhitespace c = true)
    (cs : List Nat) (p : (Bool × Nat × Int) × List Nat)
    (h : lexNumber (cs ++ tail) = some p) :
    ∃ rest0, p.2 = rest0 ++ tail ∧ lexNumber cs = some (p.1, rest0) := by
  cases cs with
  | nil =>
    rw [List.nil_append] at h
    cases tail with
    | nil => exact absurd h (by simp [lexNumber])
    | cons w tl =>
      have hw := htail w (List.mem_cons_self _ _)
      simp only [lexNumber, ws_toNat_ne hw 45 (by decide) (by decide), Bool.false_eq_true,
        if_false, lexUnsigned_ws (w :: tl) htail] at h
      exact absurd h (by simp)
  | cons c r =>
    rw [List.cons_append] at h
    unfold lexNumber at h ⊢
    simp only at h ⊢
    split at h
    · rename_i h1
      simp only [h1, if_true]
      exact lexUnsigned_tail tail htail _ r p h
    · rename_i h1
      simp only [h1, if_false, Bool.false_eq_true]
      exact lexUnsigned_tail tail htail _ (c :: r) p h

theorem literal_tail (lit : List Nat) (hlit : ∀ a ∈ lit, isJsWhitespace a = false)
    (tail : List Nat) (htail : ∀ c ∈ tail, isJsWhitespace c = true) (cs : List Nat) :
    lit.isPrefixOf (cs ++ tail) = lit.isPrefixOf cs := by
  induction lit generalizing cs with
  | nil => simp only [List.isPrefixOf]
  | cons a as ih =>
    cases cs with
    | nil =>
      rw [List.nil_append]
      cases tail with
      | nil => rfl
      | cons w tl =>
        have hw := htail w (List.mem_cons_self _ _)
        have ha := hlit a (List.mem_cons_self _ _)
        have hne : a ≠ w := by
          intro he
          rw [he, hw] at ha
          exact absurd ha (by decide)
        simp only [List.isPrefixOf, beq_eq_false_iff_ne.mpr hne, Bool.false_and]
    | cons c r =>
      rw [List.cons_append]
      simp only [List.isPrefixOf]
      rw [ih (fun x hx => hlit x (List.mem_cons_of_mem _ hx))]

theorem literal_drop (lit : List Nat) (tail cs : List Nat)
    (h : lit.isPrefixOf cs = true) :
    (cs ++ tail).drop lit.length = cs.drop lit.length ++ tail := by
  have hle : lit.length ≤ cs.length := (List.isPrefixOf_iff_prefix.mp h).length_le
  exact List.drop_append_of_le_length hle

theorem lexToken_length (c : Nat) (cs : List Nat) (p : Token × List Nat)
    (h : lexToken c cs = some p) : p.2.length ≤ cs.length := by
  have hpunct : ∀ t : Token, some (t, cs) = some p → p.2.length ≤ cs.length := by
    intro t ht
    rw [← Option.some.inj ht]
  have hlit : ∀ (t : Token) (k : Nat), some (t, (c :: cs).drop (k + 1)) = some p →
      p.2.length ≤ cs.length := by
    intro t k ht
    rw [← Option.some.inj ht]
    simp only [List.drop_succ_cons, List.length_drop]
    omega
  unfold lexToken at h
  by_cases h1 : (c == 123) = true
  · rw [if_pos h1] at h; exact hpunct _ h
  rw [if_neg h1] at h
  by_cases h2 : (c == 125) = true
  · rw [if_pos h2] at h; exact hpunct _ h
  rw [if_neg h2] at h
  by_cases h3 : (c == 91) = true
  · rw [if_pos h3] at h; exact hpunct _ h
  rw [if_neg h3] at h
  by_cases h4 : (c == 93) = true
  · rw [if_pos h4] at h; exact hpunct _ h
  rw [if_neg h4] at h
  by_cases h5 : (c == 44) = true
  · rw [if_pos h5] at h; exact hpunct _ h
  rw [if_neg h5] at h
  by_cases h6 : (c == 58) = true
  · rw [if_pos h6] at h; exact hpunct _ h
  rw [if_neg h6] at h
  by_cases h7 : (c == 34) = true
  · rw [if_pos h7] at h
    cases hl : lexString cs with
    | none => rw [hl] at h; exact absurd h (by simp)
    | some q =>
      rw [hl] at h
      rw [← Option.some.inj h]
      exact Nat.le_of_lt (lexString_length cs q hl)
  rw [if_neg h7] at h
  by_cases h8 : (c == 45 || isDigit c) = true
  · rw [if_pos h8] at h
    cases hl : lexNumber (c :: cs) with
    | none => rw [hl] at h; exact absurd h (by simp)
    | some q =>
      rw [hl] at h
      rw [← Option.some.inj h]
      have := lexNumber_length _ q hl
      simp only [List.length_cons] at this
      exact Nat.le_of_lt_succ this
  rw [if_neg h8] at h
  by_cases h9 : trueChars.isPrefixOf (c :: cs) = true
  · rw [if_pos h9] at h; exact hlit _ 3 h
  rw [if_neg h9] at h
  by_cases h10 : falseChars.isPrefixOf (c :: cs) = true
  · rw [if_pos h10] at h; exact hlit _ 4 h
  rw [if_neg h10] at h
  by_cases h11 : nullChars.isPrefixOf (c :: cs) = true
  · rw [if_pos h11] at h; exact hlit _ 3 h
  rw [if_neg h11] at h
  exact absurd h (by simp)

theorem lexToken_tail (tail : List Nat) (htail : ∀ c ∈ tail, isJsWhitespace c = true)
    (c : Nat) (cs : List Nat) (p : Token × List Nat)
    (h : lexToken c (cs ++ tail) = some p) :
    ∃ rest0, p.2 = rest0 ++ tail ∧ lexToken c cs = some (p.1, rest0) := by
  have hpunct : ∀ t : Token, some (t, cs ++ tail) = some p →
      ∃ rest0, p.2 = rest0 ++ tail ∧ some (t, cs) = some (p.1, rest0) := by
    intro t ht
    rw [← Option.some.inj ht]
    exact ⟨cs, rfl, rfl⟩
  have hlit : ∀ (t : Token) (k : Nat) (lit : List Nat), lit.length = k →
      lit.isPrefixOf (c :: cs) = true → some (t, (c :: (cs ++ tail)).drop k) = some p →
      ∃ rest0, p.2 = rest0 ++ tail ∧ some (t, (c :: cs).drop k) = some (p.1, rest0) := by
    intro t k lit hk hpre ht
    rw [← Option.some.inj ht]
    refine ⟨(c :: cs).drop k, ?_, rfl⟩
    have := literal_drop lit tail (c :: cs) hpre
    rw [hk] at this
    exact this
  have hT : trueChars.isPrefixOf (c :: (cs ++ tail)) = trueChars.isPrefixOf (c :: cs) :=
    literal_tail trueChars (by decide) tail htail (c :: cs)
  have hF : falseChars.isPrefixOf (c :: (cs ++ tail)) = falseChars.isPrefixOf (c :: cs) :=
    literal_tail falseChars (by decide) tail htail (c :: cs)
  have hN : nullChars.isPrefixOf (c :: (cs ++ tail)) = nullChars.isPrefixOf (c :: cs) :=
    literal_tail nullChars (by decide) tail htail (c :: cs)
  unfold lexToken at h ⊢
  rw [hT, hF, hN] at h
  by_cases h1 : (c == 123) = true
  · rw [if_pos h1] at h ⊢; exact hpunct _ h
  rw [if_neg h1] at h ⊢
  by_cases h2 : (c == 125) = true
  · rw [if_pos h2] at h ⊢; exact hpunct _ h
  rw [if_neg h2] at h ⊢
  by_cases h3 : (c == 91) = true
  · rw [if_pos h3] at h ⊢; exact hpunct _ h
  rw [if_neg h3] at h ⊢
  by_cases h4 : (c == 93) = true
  · rw [if_pos h4] at h ⊢; exact hpunct _ h
  rw [if_neg h4] at h ⊢
  by_cases h5 : (c == 44) = true
  · rw [if_pos h5] at h ⊢; exact hpunct _ h
  rw [if_neg h5] at h ⊢
  by_cases h6 : (c == 58) = true
  · rw [if_pos h6] at h ⊢; exact hpunct _ h
  rw [if_neg h6] at h ⊢
  by_cases h7 : (c == 34) = true
  · rw [if_pos h7] at h ⊢
    cases hl : lexString (cs ++ tail) with
    | none => rw [hl] at h; exact absurd h (by simp)
    | some q =>
      rw [hl] at h
      obtain ⟨rest0, e1, e2⟩ := lexString_tail tail htail cs q hl
      rw [← Option.some.inj h, e2]
      exact ⟨rest0, e1, rfl⟩
  rw [if_neg h7] at h ⊢
  by_cases h8 : (c == 45 || isDigit c) = true
  · rw [if_pos h8] at h ⊢
    cases hl : lexNumber (c :: (cs ++ tail)) with
    | none => rw [hl] at h; exact absurd h (by simp)
    | some q =>
      rw [hl] at h
      obtain ⟨rest0, e1, e2⟩ := lexNumber_tail tail htail (c :: cs) q hl
      rw [← Option.some.inj h, e2]
      exact ⟨rest0, e1, rfl⟩
  rw [if_neg h8] at h ⊢
  by_cases h9 : trueChars.isPrefixOf (c :: cs) = true
  · rw [if_pos h9] at h ⊢; exact hlit _ 4 trueChars rfl h9 h
  rw [if_neg h9] at h ⊢
  by_cases h10 : falseChars.isPrefixOf (c :: cs) = true
  · rw [if_pos h10] at h ⊢; exact hlit _ 5 falseChars rfl h10 h
  rw [if_neg h10] at h ⊢
  by_cases h11 : nullChars.isPrefixOf (c :: cs) = true
  · rw [if_pos h11] at h ⊢; exact hlit _ 4 nullChars rfl h11 h
  rw [if_neg h11] at h
  exact absurd h (by simp)

theorem trimEnd_append_tail (cs : List Nat) :
    ∃ tail, cs = trimEnd cs ++ tail ∧ ∀ c ∈ tail, isJsWhitespace c = true := by
  refine ⟨(cs.reverse.takeWhile isJsWhitespace).reverse, ?_, ?_⟩
  · have h := List.takeWhile_append_dropWhile isJsWhitespace cs.reverse
    have h2 := congrArg List.reverse h
    rw [List.reverse_append, List.reverse_reverse] at h2
    exact h2.symm
  · intro c hc
    exact List.mem_takeWhile_imp (List.mem_reverse.mp hc)

theorem tokenize_fuel (n : Nat) :
    ∀ (m : Nat) (cs : List Nat) (ts : List Token), tokenize n cs = some ts →
      cs.length < m → tokenize m cs = some ts := by
  induction n with
  | zero =>
    intro m cs ts h
    exact absurd h (by simp [tokenize])
  | succ n ih =>
    intro m cs ts h hm
    cases m with
    | zero => exact absurd hm (Nat.not_lt_zero _)
    | succ m =>
      cases cs with
      | nil => exact h
      | cons c r =>
        simp only [List.length_cons] at hm
        unfold tokenize at h ⊢
        by_cases hw : isJsonWhitespace c = true
        · rw [if_pos hw] at h ⊢
          exact ih m r ts h (by omega)
        · rw [if_neg hw] at h ⊢
          cases hl : lexToken c r with
          | none => rw [hl] at h; exact absurd h (by simp)
          | some q =>
            obtain ⟨tok, rest⟩ := q
            rw [hl] at h
            simp only at h ⊢
            cases ht : tokenize n rest with
            | none => rw [ht] at h; exact absurd h (by simp)
            | some ts1 =>
              rw [ht] at h
              have hlen := lexToken_length c r _ hl
              simp only at hlen
              rw [ih m rest ts1 ht (by omega)]
              exact h

theorem tokenize_ws (tail : List Nat) (htail : ∀ c ∈ tail, isJsWhitespace c = true) :
    ∀ (n : Nat) (ts : List Token), tokenize n tail = some ts → ts = [] := by
  induction tail with
  | nil =>
    intro n ts h
    cases n with
    | zero => exact absurd h (by simp [tokenize])
    | succ n =>
      simp only [tokenize, Option.some.injEq] at h
      exact h.symm
  | cons w tl ih =>
    intro n ts h
    cases n with
    | zero => exact absurd h (by simp [tokenize])
    | succ n =>
      unfold tokenize at h
      by_cases hw : isJsonWhitespace w = true
      · rw [if_pos hw] at h
        exact ih (fun c hc => htail c (List.mem_cons_of_mem _ hc)) n ts h
      · rw [if_neg hw, ws_lexToken (htail w (List.mem_cons_self _ _))] at h
        exact absurd h (by simp)

theorem tokenize_dropWhile (cs : List Nat) :
    ∀ (n : Nat) (ts : List Token), tokenize n cs = some ts →
      ∃ m, tokenize m (cs.dropWhile isJsWhitespace) = some ts := by
  induction cs with
  | nil => intro n ts h; exact ⟨n, h⟩
  | cons c r ih =>
    intro n ts h
    by_cases hc : isJsWhitespace c = true
    · rw [List.dropWhile_cons_of_pos hc]
      cases n with
      | zero => exact absurd h (by simp [tokenize])
      | succ n =>
        unfold tokenize at h
        by_cases hw : isJsonWhitespace c = true
        · rw [if_pos hw] at h
          exact ih n ts h
        · rw [if_neg hw, ws_lexToken hc] at h
          exact absurd h (by simp)
    · rw [List.dropWhile_cons_of_neg hc]
      exact ⟨n, h⟩

theorem tokenize_tail (tail : List Nat) (htail : ∀ c ∈ tail, isJsWhitespace c = true)
    (n : Nat) :
    ∀ (cs : List Nat) (ts : List Token), tokenize n (cs ++ tail) = some ts →
      tokenize n cs = some ts := by
  induction n with
  | zero =>
    intro cs ts h
    exact absurd h (by simp [tokenize])
  | succ n ih =>
    intro cs ts h
    cases cs with
    | nil =>
      rw [List.nil_append] at h
      rw [tokenize_ws tail htail _ ts h]
      rfl
    | cons c r =>
      rw [List.cons_append] at h
      unfold tokenize at h ⊢
      by_cases hw : isJsonWhitespace c = true
      · rw [if_pos hw] at h ⊢
        exact ih r ts h
      · rw [if_neg hw] at h ⊢
        cases hl : lexToken c (r ++ tail) with
        | none => rw [hl] at h; exact absurd h (by simp)
        | some q =>
          obtain ⟨tok, rest⟩ := q
          rw [hl] at h
          simp only at h
          obtain ⟨rest0, e1, e2⟩ := lexToken_tail tail htail c r _ hl
          simp only at e1 e2
          subst e1
          rw [e2]
          simp only
          cases ht : tokenize n (rest0 ++ tail) with
          | none => rw [ht] at h; exact absurd h (by simp)
          | some ts1 =>
            rw [ht] at h
            rw [ih rest0 ts1 ht]
            exact h

/-- Trimming a text that `JSON.parse` accepts does not change what it parses to. -/
theorem parse_jsTrim (engine : Engine) (t : JsString) (d : JVal)
    (h : JSON.parse engine t = .ok d) : JSON.parse engine (jsTrim t) = .ok d := by
  unfold JSON.parse at h ⊢
  cases htk : tokenize (t.length + 1) t with
  | none => rw [htk] at h; exact absurd h (by simp)
  | some ts =>
    obtain ⟨m, h1⟩ := tokenize_dropWhile t _ ts htk
    obtain ⟨tail, e1, e2⟩ := trimEnd_append_tail (t.dropWhile isJsWhitespace)
    rw [e1] at h1
    have h2 := tokenize_tail tail e2 m _ ts h1
    have h3 := tokenize_fuel m ((jsTrim t).length + 1) (jsTrim t) ts h2 (Nat.lt_succ_self _)
    rw [htk] at h
    rw [h3]
    dsimp only at h ⊢
    cases hp : parseValue (ts.length + 1) ts with
    | none => rw [hp] at h; exact absurd h (by simp)
    | some q =>
      obtain ⟨v, rest⟩ := q
      rw [hp] at h
      cases rest with
      | nil => exact h
      | cons x xs => exact absurd h (by simp)

/-! ## Fenced documents -/

theorem fence_not_prefix_of_body (c : Nat) (r : List Nat) (h : ¬ hasFence (c :: r)) :
    fence.isPrefixOf (c :: (r ++ (10 :: fence))) = false := by
  cases hb : fence.isPrefixOf (c :: (r ++ (10 :: fence))) with
  | false => rfl
  | true =>
    exfalso
    obtain ⟨r1, hr1⟩ := fence_isPrefixOf_iff.mp hb
    rcases r with _ | ⟨x, _ | ⟨y, r2⟩⟩
    · simp only [List.nil_append, List.cons.injEq] at hr1
      exact absurd hr1.2.1 (by decide)
    · simp only [List.cons_append, List.nil_append, List.cons.injEq] at hr1
      exact absurd hr1.2.2.1 (by decide)
    · simp only [List.cons_append, List.cons.injEq] at hr1
      apply h
      rw [hasFence, fence_eq, hr1.1, hr1.2.1, hr1.2.2.1]
      exact (List.prefix_append [tick, tick, tick] r2).isInfix

/-- The closing marker is the only fence in a fence-free text followed by it. -/
theorem stripFences_body (t : List Nat) (h : ¬ hasFence t) :
    stripFences (t ++ (10 :: fence)) = t ++ [10] := by
  induction t with
  | nil => decide
  | cons c r ih =>
    rw [List.cons_append, stripFences_cons (fence_not_prefix_of_body c r h),
      ih (fun hr => h (List.infix_cons hr)), List.cons_append]

theorem fenced_eq (t : JsString) :
    fenced t = fenceJson ++ (10 :: (t ++ (10 :: fence))) := by
  show utf16 "```json\n" ++ t ++ utf16 "\n```" = _
  have h1 : utf16 "```json\n" = fenceJson ++ [10] := by decide
  have h2 : utf16 "\n```" = 10 :: fence := by decide
  rw [h1, h2]
  simp only [List.append_assoc, List.singleton_append, List.cons_append, List.nil_append]

theorem stripFences_fenced (t : JsString) (h : ¬ hasFence t) :
    stripFences (fenced t) = 10 :: (t ++ [10]) := by
  have hj : fenceJson.isPrefixOf (fenceJson ++ (10 :: (t ++ (10 :: fence)))) = true :=
    List.isPrefixOf_iff_prefix.mpr (List.prefix_append _ _)
  have hn : fence.isPrefixOf (10 :: (t ++ (10 :: fence))) = false := by
    rw [fence_eq]
    exact isPrefixOf_cons_of_toNat_ne _ _ (by decide)
  rw [fenced_eq, stripFences_fenceJson hj]
  have hd : List.drop 7 (fenceJson ++ (10 :: (t ++ (10 :: fence))))
      = 10 :: (t ++ (10 :: fence)) := rfl
  rw [hd, stripFences_cons hn, stripFences_body t h]

/-- Cleaning a fenced text without inner fences gives the trimmed text. -/
theorem clean_fenced (t : JsString) (h : ¬ hasFence t) : clean (fenced t) = jsTrim t := by
  show jsTrim (stripFences (fenced t)) = _
  rw [stripFences_fenced t h, jsTrim_wrapped _ _ _ (by decide) (by decide)]

theorem fenced_ne_empty (t : JsString) : fenced t ≠ [] := by
  rw [fenced_eq, fenceJson_eq]
  exact List.cons_ne_nil _ _

/-! ## Supplements to the claims that the handler breaks -/

/-- The part of claim C6 that the handler keeps: when the body of a non-success upstream
reply parses to a JSON value other than `null`, the status of the reply is relayed with
the upstream message, or with the generic message when there is none. -/
theorem upstream_status_is_relayed (engine : Engine) (key : String) (reqBody : JVal)
    (upstream : Upstream) (image : JVal) (s : Nat) (address bodyText : String) (data : JVal)
    (v : Option JVal)
    (hkey : key ≠ "") (himg : member reqBody (utf16 "imageBase64") = some image)
    (ht : truthy (some image) = true)
    (hup : upstream (outboundCall key image (member reqBody (utf16 "mediaType")))
      = .response s address bodyText)
    (hs : responseOk s = false) (hdata : JSON.parse engine (utf16 bodyText) = .ok data)
    (hmsg : errorMessage data = .ok v) :
    (analyze engine (some key) reqBody upstream).response
      = { status := s
          body := errorBody (wire (jsOr v (.str (utf16 "Gemini API error")))) } := by
  rw [analyze_of_response engine hkey himg ht hup]
  simp only [relay, responseJson, hdata, hs, hmsg, Bool.not_false, if_true]
  rfl

/-- The part of claim C7 that the handler keeps: when the body of a successful upstream
reply parses to a JSON value other than `null` in which the text field is absent or falsy
at any level below the root, the answer is 500 with `Empty response from Gemini`. -/
theorem empty_text_is_500 (engine : Engine) (key : String) (reqBody : JVal)
    (upstream : Upstream) (image : JVal) (s : Nat) (address bodyText : String) (data : JVal)
    (v : Option JVal)
    (hkey : key ≠ "") (himg : member reqBody (utf16 "imageBase64") = some image)
    (ht : truthy (some image) = true)
    (hup : upstream (outboundCall key image (member reqBody (utf16 "mediaType")))
      = .response s address bodyText)
    (hs : responseOk s = true) (hdata : JSON.parse engine (utf16 bodyText) = .ok data)
    (htext : candidateText data = .ok v) (hv : truthy v = false) :
    (analyze engine (some key) reqBody upstream).response
      = { status := 500, body := errorBody (.str (utf16 "Empty response from Gemini")) } := by
  have hj : truthy (some (jsOr v (.str []))) = false := by
    cases v with
    | none => rfl
    | some w =>
      simp only [jsOr, hv, Bool.false_eq_true, if_false]
      rfl
  rw [analyze_of_response engine hkey himg ht hup]
  simp only [relay, responseJson, hdata, hs, htext, hj, Bool.not_true, Bool.not_false,
    if_true, if_false, Bool.false_eq_true]
  rfl

/-! ## Properties of the handler -/

/-- Claim C2: when no credential is configured (the variable is unset or empty), every
call is answered with status 500 and the fixed configuration error, whatever the request
body and whatever the upstream service would do, and no outbound call is made. -/
theorem no_credential_fails_fast (engine : Engine) (reqBody : JVal) (upstream : Upstream) :
    analyze engine none reqBody upstream =
        { response :=
            { status := 500
              body := errorBody (.str (utf16 "GEMINI_API_KEY not set on server")) }
          calls := [] }
      ∧ analyze engine (some "") reqBody upstream =
        { response :=
            { status := 500
              body := errorBody (.str (utf16 "GEMINI_API_KEY not set on server")) }
          calls := [] } :=
  ⟨rfl, rfl⟩

/-- Claim C1, refuted as stated: with no credential configured, a request with an empty
body object is answered with status 500 and the configuration error, not with status 400. -/
theorem missing_image_without_credential :
    member (.obj []) (utf16 "imageBase64") = none
      ∧ (analyze sampleEngine none (.obj []) (fun _ => .failed [])).response.status = 500
      ∧ (analyze sampleEngine none (.obj []) (fun _ => .failed [])).response.status ≠ 400 := by
  refine ⟨rfl, rfl, ?_⟩
  show (500 : Nat) ≠ 400
  decide

/-- Claim C1, amended: with a credential configured, every request whose body is not
`null` and whose `imageBase64` is absent or falsy (the empty string in particular) is
answered with exactly status 400 and the body `{error: "imageBase64 is required"}`, and no
outbound call is made. -/
theorem missing_image_is_400 (engine : Engine) (key : String) (reqBody : JVal)
    (upstream : Upstream) (hkey : key ≠ "") (hbody : reqBody ≠ .null)
    (himg : truthy (member reqBody (utf16 "imageBase64")) = false) :
    analyze engine (some key) reqBody upstream =
      { response :=
          { status := 400, body := errorBody (.str (utf16 "imageBase64 is required")) }
        calls := [] } :=
  missing_image_response engine key reqBody upstream hkey hbody himg

/-- The amended claim C1 at a request whose `imageBase64` is the empty string. -/
theorem missing_image_is_400_witness :
    analyze sampleEngine (some "k") (.obj [(utf16 "imageBase64", .str [])])
        (fun _ => .failed []) =
      { response :=
          { status := 400, body := errorBody (.str (utf16 "imageBase64 is required")) }
        calls := [] } :=
  missing_image_is_400 sampleEngine "k" (.obj [(utf16 "imageBase64", .str [])])
    (fun _ => .failed []) (by decide) (by simp) rfl

/-- Claim C3: with a credential configured and a truthy `imageBase64`, when the upstream
answers with a non-success status `s` and a JSON object as body, the proxy answers with
status `s` and `{error: m}` if the object carries `error.message = m` for a non-empty
string `m`, and with status `s` and `{error: "Gemini API error"}` if it carries no
`error.message` (the read `data.error?.message` is `undefined`, or falsy). -/
theorem upstream_rejection_is_relayed (engine : Engine) (key : String) (reqBody : JVal)
    (upstream : Upstream) (image : JVal) (s : Nat) (address bodyText : String)
    (members : List (JsString × JVal))
    (hkey : key ≠ "") (himg : member reqBody (utf16 "imageBase64") = some image)
    (ht : truthy (some image) = true)
    (hup : upstream (outboundCall key image (member reqBody (utf16 "mediaType")))
      = .response s address bodyText)
    (hs : responseOk s = false)
    (hdata : JSON.parse engine (utf16 bodyText) = .ok (.obj members)) :
    (∀ m : JsString, m ≠ [] → errorMessage (.obj members) = .ok (some (.str m)) →
        (analyze engine (some key) reqBody upstream).response
          = { status := s, body := errorBody (.str m) })
      ∧ (∀ v : Option JVal, truthy v = false → errorMessage (.obj members) = .ok v →
        (analyze engine (some key) reqBody upstream).response
          = { status := s, body := errorBody (.str (utf16 "Gemini API error")) }) := by
  constructor
  · intro m hm he
    rw [upstream_status_is_relayed engine key reqBody upstream image s address bodyText _ _
      hkey himg ht hup hs hdata he]
    have hv : truthy (some (JVal.str m)) = true := by
      cases m with
      | nil => exact absurd rfl hm
      | cons c r => rfl
    simp only [jsOr, hv, if_true]
    rfl
  · intro v hv he
    rw [upstream_status_is_relayed engine key reqBody upstream image s address bodyText _ _
      hkey himg ht hup hs hdata he]
    cases v with
    | none => rfl
    | some w =>
      simp only [jsOr, hv, Bool.false_eq_true, if_false]
      rfl

/-- Claim C3 at the upstream reply 429 with `error.message = "rate limited"`. -/
theorem upstream_rejection_is_relayed_witness :
    (analyze sampleEngine (some "k") imageOnly
        (fun _ => .response 429 (url "k")
          "\x7b\"error\": \x7b\"message\": \"rate limited\"\x7d\x7d")).response
      = { status := 429, body := errorBody (.str (utf16 "rate limited")) } :=
  (upstream_rejection_is_relayed sampleEngine "k" imageOnly
    (fun _ => .response 429 (url "k")
      "\x7b\"error\": \x7b\"message\": \"rate limited\"\x7d\x7d")
    (.str (utf16 "aGk=")) 429 (url "k")
    "\x7b\"error\": \x7b\"message\": \"rate limited\"\x7d\x7d"
    [(utf16 "error", .obj [(utf16 "message", .str (utf16 "rate limited"))])]
    (by decide) rfl rfl rfl rfl rfl).1 (utf16 "rate limited") (by decide) rfl

/-- Claim C7, at its failing input: a successful upstream reply whose body is the JSON
value `null` has no text field at the root of the envelope; reading `data.candidates`
throws, and the answer is status 500 with the message of that `TypeError` instead of
`{error: "Empty response from Gemini"}`. -/
theorem null_envelope_is_not_reported_empty (engine : Engine) :
    (analyze engine (some "k") imageOnly
        (fun _ => .response 200 (url "k") "null")).response
      = { status := 500
          body := errorBody
            (.str (utf16 "Cannot read properties of null (reading \x27candidates\x27)")) } :=
  rfl

/-- Claim C6, at its failing inputs: an upstream reply with the non-success status 503
is answered with status 500, not 503, both when its body is not JSON (`response.json()`
throws before the status is looked at; the message ends with the text of the engine for
that input) and when its body is the JSON value `null` (reading `data.error` throws). -/
theorem upstream_status_is_lost (engine : Engine) :
    (analyze engine (some "k") imageOnly
        (fun _ => .response 503 (url "k") "Service Unavailable")).response
      = { status := 500
          body := errorBody (.str (utf16 "invalid json response body at " ++ utf16 (url "k")
            ++ utf16 " reason: " ++ engine.parseErrorMessage (utf16 "Service Unavailable"))) }
      ∧ (analyze engine (some "k") imageOnly
        (fun _ => .response 503 (url "k") "null")).response
      = { status := 500
          body := errorBody
            (.str (utf16 "Cannot read properties of null (reading \x27error\x27)")) } :=
  ⟨rfl, rfl⟩

/-- Claim C8: with a credential configured and a truthy `imageBase64`, when the upstream
succeeds with a non-empty generated text whose cleaned form `JSON.parse` rejects with
message `e`, the proxy answers with status 500 and the body `{error: e}`; the body is not
the malformed text (raw or cleaned) and the status is not 200. -/
theorem parse_failure_is_500 (engine : Engine) (key : String) (reqBody : JVal)
    (upstream : Upstream) (image : JVal) (s : Nat) (address bodyText : String) (data : JVal)
    (text e : JsString)
    (hkey : key ≠ "") (himg : member reqBody (utf16 "imageBase64") = some image)
    (ht : truthy (some image) = true)
    (hup : upstream (outboundCall key image (member reqBody (utf16 "mediaType")))
      = .response s address bodyText)
    (hs : responseOk s = true) (hdata : JSON.parse engine (utf16 bodyText) = .ok data)
    (htext : candidateText data = .ok (some (.str text))) (hne : text ≠ [])
    (hbad : JSON.parse engine (clean text) = .error e) :
    (analyze engine (some key) reqBody upstream).response
        = { status := 500, body := errorBody (.str e) }
      ∧ (analyze engine (some key) reqBody upstream).response.body ≠ .str text
      ∧ (analyze engine (some key) reqBody upstream).response.body ≠ .str (clean text)
      ∧ (analyze engine (some key) reqBody upstream).response.status ≠ 200 := by
  have he : e.isEmpty = false := by
    have := parse_error_ne hbad
    cases e with
    | nil => exact absurd rfl this
    | cons c r => rfl
  have hv : truthy (some (JVal.str text)) = true := by
    cases text with
    | nil => exact absurd rfl hne
    | cons c r => rfl
  have h : (analyze engine (some key) reqBody upstream).response
      = { status := 500, body := errorBody (.str e) } := by
    rw [analyze_of_response engine hkey himg ht hup]
    simp only [relay, responseJson, hdata, hs, htext, jsOr, hv, hbad, catchBlock, he,
      Bool.not_true, Bool.false_eq_true, if_false, if_true]
    rfl
  rw [h]
  refine ⟨rfl, ?_, ?_, ?_⟩
  · simp [errorBody]
  · simp [errorBody]
  · simp

/-- Claim C8 at a generated text that is plain prose. -/
theorem parse_failure_is_500_witness :
    (analyze sampleEngine (some "k") imageOnly
        (fun _ => .response 200 (url "k")
          "\x7b\"candidates\":[\x7b\"content\":\x7b\"parts\":[\x7b\"text\":\"Sorry, no food here.\"\x7d]\x7d\x7d]\x7d")).response
      = { status := 500
          body := errorBody (.str
            (sampleEngine.parseErrorMessage (clean (utf16 "Sorry, no food here.")))) } :=
  (parse_failure_is_500 sampleEngine "k" imageOnly
    (fun _ => .response 200 (url "k")
      "\x7b\"candidates\":[\x7b\"content\":\x7b\"parts\":[\x7b\"text\":\"Sorry, no food here.\"\x7d]\x7d\x7d]\x7d")
    (.str (utf16 "aGk=")) 200 (url "k")
    "\x7b\"candidates\":[\x7b\"content\":\x7b\"parts\":[\x7b\"text\":\"Sorry, no food here.\"\x7d]\x7d\x7d]\x7d"
    (envelope (utf16 "Sorry, no food here."))
    (utf16 "Sorry, no food here.")
    (sampleEngine.parseErrorMessage (clean (utf16 "Sorry, no food here.")))
    (by decide) rfl rfl rfl rfl rfl rfl (by decide) rfl).1

/-- Claim C10: for every text, the cleaned text (every leftmost non-overlapping match of
the tagged or plain fence removed, then whitespace trimmed) contains no three consecutive
backticks, so removals never join leftover backticks into a new fence; and cleaning is
idempotent. -/
theorem clean_has_no_fence_and_is_idempotent (t : JsString) :
    ¬ hasFence (clean t) ∧ clean (clean t) = clean t := by
  have hno : ¬ hasFence (jsTrim (stripFences t)) := fun h =>
    not_hasFence_stripFences t (List.IsInfix.trans h (jsTrim_isInfix_self _))
  refine ⟨hno, ?_⟩
  show jsTrim (stripFences (jsTrim (stripFences t))) = jsTrim (stripFences t)
  rw [stripFences_of_not_hasFence _ hno, jsTrim_idempotent]

/-- Claim C9, refuted as stated: a request that supplies the media type `""` along with
an image makes one outbound call whose inline image part carries the `mime_type`
`"image/jpeg"`, not the media type of the request. -/
theorem empty_media_type_is_replaced :
    member emptyMediaType (utf16 "imageBase64") = some (.str (utf16 "aGk="))
      ∧ member emptyMediaType (utf16 "mediaType") = some (.str [])
      ∧ (analyze sampleEngine (some "k") emptyMediaType
          (fun _ => .failed (utf16 "socket hang up"))).calls
          = [outboundCall "k" (.str (utf16 "aGk=")) (some (.str []))]
      ∧ optProp (inlineData (outboundCall "k" (.str (utf16 "aGk=")) (some (.str []))))
          (utf16 "mime_type") = some (.str (utf16 "image/jpeg"))
      ∧ optProp (inlineData (outboundCall "k" (.str (utf16 "aGk=")) (some (.str []))))
          (utf16 "mime_type") ≠ some (.str []) := by
  refine ⟨rfl, rfl, rfl, rfl, ?_⟩
  show some (JVal.str (utf16 "image/jpeg")) ≠ some (JVal.str [])
  simp only [ne_eq, Option.some.injEq, JVal.str.injEq]
  decide

/-- Claim C9, amended: with a credential configured, a request with a truthy `imageBase64`
makes exactly one outbound call, a `POST` to the endpoint of `gemini-2.0-flash`; its
inline image part carries as `data` the image as `JSON.stringify` writes it (a string
unchanged), and as `mime_type` the `mediaType` of the request as `JSON.stringify` writes
it when that is truthy (a non-empty string unchanged) and `"image/jpeg"` when it is
omitted or falsy.  A `mediaType` that is omitted or falsy causes no failure of its own:
the outcome is the one of the same request with `mediaType: "image/jpeg"`. -/
theorem one_outbound_call_with_image (engine : Engine) (key : String) (reqBody : JVal)
    (upstream : Upstream) (image : JVal) (hkey : key ≠ "")
    (himg : member reqBody (utf16 "imageBase64") = some image)
    (ht : truthy (some image) = true) :
    ∃ call : OutboundCall,
      (analyze engine (some key) reqBody upstream).calls = [call]
        ∧ call.url = url key
        ∧ call.method = "POST"
        ∧ optProp (inlineData call) (utf16 "data") = some (wire image)
        ∧ (∀ s : JsString, image = .str s →
            optProp (inlineData call) (utf16 "data") = some image)
        ∧ (∀ mt : JVal, member reqBody (utf16 "mediaType") = some mt →
            truthy (some mt) = true →
            optProp (inlineData call) (utf16 "mime_type") = some (wire mt))
        ∧ (∀ s : JsString, member reqBody (utf16 "mediaType") = some (.str s) → s ≠ [] →
            optProp (inlineData call) (utf16 "mime_type") = some (.str s))
        ∧ (truthy (member reqBody (utf16 "mediaType")) = false →
            optProp (inlineData call) (utf16 "mime_type") = some (.str (utf16 "image/jpeg")))
        ∧ (truthy (member reqBody (utf16 "mediaType")) = false →
            ∀ explicit : JVal, member explicit (utf16 "imageBase64") = some image →
              member explicit (utf16 "mediaType") = some (.str (utf16 "image/jpeg")) →
              analyze engine (some key) reqBody upstream
                = analyze engine (some key) explicit upstream) := by
  refine ⟨outboundCall key image (member reqBody (utf16 "mediaType")),
    ?_, rfl, rfl, ?_, ?_, ?_, ?_, ?_, ?_⟩
  · rw [analyze_of_image engine upstream hkey himg ht]
  · rw [inlineData_outboundCall]
    rfl
  · intro s hs
    subst hs
    rw [inlineData_outboundCall]
    rfl
  · intro mt hmt htr
    rw [inlineData_outboundCall, hmt]
    simp only [jsOr, htr, if_true]
    rfl
  · intro s hmt hs
    have htr : truthy (some (JVal.str s)) = true := by
      cases s with
      | nil => exact absurd rfl hs
      | cons c r => rfl
    rw [inlineData_outboundCall, hmt]
    simp only [jsOr, htr, if_true]
    rfl
  · intro hmt
    rw [inlineData_outboundCall]
    cases hm : member reqBody (utf16 "mediaType") with
    | none => rfl
    | some x =>
      rw [hm] at hmt
      simp only [jsOr, hmt, Bool.false_eq_true, if_false]
      rfl
  · intro hmt explicit hi hm
    have hc : outboundCall key image (member reqBody (utf16 "mediaType"))
        = outboundCall key image (some (.str (utf16 "image/jpeg"))) := by
      unfold outboundCall
      rw [requestObject_of_falsy image _ hmt]
    rw [analyze_of_image engine upstream hkey himg ht,
      analyze_of_image engine upstream hkey hi ht, hm, hc]

/-- The amended claim C9 at a request without `mediaType`, whatever becomes of the call. -/
theorem one_outbound_call_with_image_witness :
    ∃ call : OutboundCall,
      (analyze sampleEngine (some "k") imageOnly
          (fun _ => .failed (utf16 "socket hang up"))).calls = [call]
        ∧ call.url = url "k"
        ∧ optProp (inlineData call) (utf16 "data") = some (.str (utf16 "aGk="))
        ∧ optProp (inlineData call) (utf16 "mime_type") = some (.str (utf16 "image/jpeg")) :=
  match one_outbound_call_with_image sampleEngine "k" imageOnly
      (fun _ => .failed (utf16 "socket hang up")) (.str (utf16 "aGk=")) (by decide) rfl rfl with
  | ⟨call, h1, h2, _, h4, _, _, _, h8, _⟩ => ⟨call, h1, h2, h4, h8 rfl⟩

/-- Claim C5, refuted as stated: a successful upstream reply whose generated text is `[]`
is answered with status 200 and a body that is an array, not an object; and a non-success
upstream reply whose `error.message` is the number 42 is answered with that status and an
`error` field holding the number, not a string. -/
theorem response_need_not_be_object :
    (analyze sampleEngine (some "k") imageOnly
        (fun _ => .response 200 (url "k")
          "\x7b\"candidates\":[\x7b\"content\":\x7b\"parts\":[\x7b\"text\":\"[]\"\x7d]\x7d\x7d]\x7d")).response
        = { status := 200, body := .arr [] }
      ∧ isObject (.arr []) = false
      ∧ (analyze sampleEngine (some "k") imageOnly
        (fun _ => .response 429 (url "k")
          "\x7b\"error\":\x7b\"message\":42\x7d\x7d")).response
        = { status := 429, body := errorBody (.num (toDouble false 42 0)) }
      ∧ isString (.num (toDouble false 42 0)) = false :=
  ⟨rfl, rfl, rfl, rfl⟩

/-- Claim C5, amended: for every engine, configuration, request body and upstream outcome,
the response is either status 200, and then the upstream answered the one outbound call
with a success status and a JSON body whose generated text is a non-empty string, and the
body of the response is what the cleaned text parses to (an object or not) as `res.json`
writes it; or a status other than 200 with a body `{error: v}` whose only field holds a
string, except that the truthy `error.message` of a non-success upstream reply is relayed
as `res.json` writes it, string or not, under the status of that reply. -/
theorem response_shape (engine : Engine) (key : Option String) (reqBody : JVal)
    (upstream : Upstream) :
    ((analyze engine key reqBody upstream).response.status = 200
        ∧ ∃ (k : String) (image : JVal) (s : Nat) (address bodyText : String)
            (data : JVal) (text : JsString) (result : JVal),
            key = some k
              ∧ member reqBody (utf16 "imageBase64") = some image
              ∧ upstream (outboundCall k image (member reqBody (utf16 "mediaType")))
                  = .response s address bodyText
              ∧ responseOk s = true
              ∧ JSON.parse engine (utf16 bodyText) = .ok data
              ∧ candidateText data = .ok (some (.str text))
              ∧ text ≠ []
              ∧ JSON.parse engine (clean text) = .ok result
              ∧ (analyze engine key reqBody upstream).response.body = wire result)
      ∨ ((analyze engine key reqBody upstream).response.status ≠ 200
        ∧ ∃ v : JVal, (analyze engine key reqBody upstream).response.body = errorBody v
          ∧ (isString v = true
            ∨ ∃ (k : String) (image : JVal) (s : Nat) (address bodyText : String)
                (data w : JVal),
                key = some k
                  ∧ member reqBody (utf16 "imageBase64") = some image
                  ∧ upstream (outboundCall k image (member reqBody (utf16 "mediaType")))
                      = .response s address bodyText
                  ∧ responseOk s = false
                  ∧ (analyze engine key reqBody upstream).response.status = s
                  ∧ JSON.parse engine (utf16 bodyText) = .ok data
                  ∧ errorMessage data = .ok (some w)
                  ∧ truthy (some w) = true
                  ∧ v = wire w)) := by
  cases key with
  | none =>
    exact Or.inr ⟨by simp [analyze, resJson],
      .str (utf16 "GEMINI_API_KEY not set on server"), rfl, Or.inl rfl⟩
  | some k =>
    by_cases hk : k = ""
    · subst hk
      exact Or.inr ⟨by simp [analyze, resJson],
        .str (utf16 "GEMINI_API_KEY not set on server"), rfl, Or.inl rfl⟩
    · by_cases hb : reqBody = .null
      · subst hb
        have hA : (analyze engine (some k) .null upstream).response = catchBlock (utf16
            "Cannot destructure property \x27imageBase64\x27 of \x27req.body\x27 as it is null.") := by
          simp only [analyze, hk, if_false, tryBlock, destructure]
        rw [hA]
        obtain ⟨h1, v, h2, h3⟩ := catchBlock_shape (utf16
          "Cannot destructure property \x27imageBase64\x27 of \x27req.body\x27 as it is null.")
        exact Or.inr ⟨h1, v, h2, Or.inl h3⟩
      · by_cases hi : truthy (member reqBody (utf16 "imageBase64")) = false
        · rw [missing_image_response engine k reqBody upstream hk hb hi]
          exact Or.inr ⟨by decide, .str (utf16 "imageBase64 is required"), rfl, Or.inl rfl⟩
        · cases hm : member reqBody (utf16 "imageBase64") with
          | none => simp [hm, truthy] at hi
          | some image =>
            have ht : truthy (some image) = true := by
              rw [hm] at hi
              simpa using hi
            cases hu : upstream (outboundCall k image (member reqBody (utf16 "mediaType"))) with
            | failed m =>
              have hA : (analyze engine (some k) reqBody upstream).response = catchBlock m := by
                rw [analyze_of_image engine upstream hk hm ht]
                simp only [hu]
              rw [hA]
              obtain ⟨h1, v, h2, h3⟩ := catchBlock_shape m
              exact Or.inr ⟨h1, v, h2, Or.inl h3⟩
            | response s address bodyText =>
              rw [analyze_of_response engine hk hm ht hu]
              cases hr : relay engine address s bodyText with
              | error m =>
                obtain ⟨h1, v, h2, h3⟩ := catchBlock_shape m
                exact Or.inr ⟨h1, v, h2, Or.inl h3⟩
              | ok r =>
                rcases relay_shape engine address s bodyText r hr with
                  ⟨h1, h2, data, text, result, h3, h4, h5, h6, h7⟩ | ⟨h1, v, h2, h3⟩
                · exact Or.inl ⟨h1, k, image, s, address, bodyText, data, text, result,
                    rfl, rfl, hu, h2, h3, h4, h5, h6, h7⟩
                · refine Or.inr ⟨h1, v, h2, ?_⟩
                  rcases h3 with h3 | ⟨h4, h5, data, w, h6, h7, h8, h9⟩
                  · exact Or.inl h3
                  · exact Or.inr ⟨k, image, s, address, bodyText, data, w,
                      rfl, rfl, hu, h4, h5, h6, h7, h8, h9⟩

/-- Claim C4, refuted as stated: `warmFood` is an analysis result of the documented shape
and `warmFoodText` is a serialisation of it, yet when the upstream succeeds with that text
in a tagged fence the proxy answers 200 with a document whose `ayurveda_analysis` field
has lost its backticks: the global replacement also removes the fences inside the string. -/
theorem fenced_document_with_backticks_is_altered :
    isAnalysisResult warmFood = true
      ∧ JSON.parse sampleEngine (utf16 warmFoodText) = .ok warmFood
      ∧ JSON.parse sampleEngine (utf16 warmFoodReply)
          = .ok (envelope (fenced (utf16 warmFoodText)))
      ∧ (analyze sampleEngine (some "k") imageOnly
          (fun _ => .response 200 (url "k") warmFoodReply)).response.status = 200
      ∧ member (analyze sampleEngine (some "k") imageOnly
          (fun _ => .response 200 (url "k") warmFoodReply)).response.body
            (utf16 "ayurveda_analysis")
          = some (.str (utf16 "Eat warm food."))
      ∧ member warmFood (utf16 "ayurveda_analysis")
          = some (.str (utf16 "Eat ```warm``` food."))
      ∧ (analyze sampleEngine (some "k") imageOnly
          (fun _ => .response 200 (url "k") warmFoodReply)).response
          ≠ { status := 200, body := warmFood } := by
  refine ⟨rfl, rfl, rfl, rfl, rfl, rfl, ?_⟩
  intro h
  have h2 := congrArg (fun r : Response => member r.body (utf16 "ayurveda_analysis")) h
  have h3 : some (JVal.str (utf16 "Eat warm food."))
      = some (JVal.str (utf16 "Eat ```warm``` food.")) := h2
  simp only [Option.some.injEq, JVal.str.injEq] at h3
  exact absurd h3 (by decide)

/-- Claim C4, amended: with a credential configured and a truthy `imageBase64`, for every
text `t` that contains no three consecutive backticks and that `JSON.parse` accepts, with
value `d` (an analysis result in particular), if the upstream succeeds with generated text
equal to `t` wrapped in a tagged fence, the proxy answers 200 with `d` as `res.json`
writes it: every field unchanged, but for a number beyond the range of a double, written
`null`, and a negative zero, written `0`. -/
theorem fenced_document_is_returned (engine : Engine) (key : String) (reqBody : JVal)
    (upstream : Upstream) (image : JVal) (s : Nat) (address bodyText : String) (data : JVal)
    (t : JsString) (d : JVal)
    (hkey : key ≠ "") (himg : member reqBody (utf16 "imageBase64") = some image)
    (ht : truthy (some image) = true)
    (hup : upstream (outboundCall key image (member reqBody (utf16 "mediaType")))
      = .response s address bodyText)
    (hs : responseOk s = true) (hdata : JSON.parse engine (utf16 bodyText) = .ok data)
    (htext : candidateText data = .ok (some (.str (fenced t))))
    (hd : JSON.parse engine t = .ok d) (hnf : ¬ hasFence t) :
    (analyze engine (some key) reqBody upstream).response
      = { status := 200, body := wire d } := by
  have hp : JSON.parse engine (clean (fenced t)) = .ok d := by
    rw [clean_fenced t hnf]
    exact parse_jsTrim engine t d hd
  have hv : truthy (some (JVal.str (fenced t))) = true := by
    have hne := fenced_ne_empty t
    cases hf : fenced t with
    | nil => exact absurd hf hne
    | cons c r => rfl
  rw [analyze_of_response engine hkey himg ht hup]
  simp only [relay, responseJson, hdata, hs, htext, jsOr, hv, hp, Bool.not_true,
    Bool.false_eq_true, if_false, if_true]
  rfl

/-- The amended claim C4 at the fenced serialisation of `riceAndDal`, which `res.json`
writes unchanged. -/
theorem fenced_document_is_returned_witness :
    isAnalysisResult riceAndDal = true
      ∧ wire riceAndDal = riceAndDal
      ∧ (analyze sampleEngine (some "k") imageOnly
          (fun _ => .response 200 (url "k") riceAndDalReply)).response
          = { status := 200, body := wire riceAndDal } :=
  ⟨rfl, rfl,
    fenced_document_is_returned sampleEngine "k" imageOnly
      (fun _ => .response 200 (url "k") riceAndDalReply) (.str (utf16 "aGk=")) 200 (url "k")
      riceAndDalReply (envelope (fenced (utf16 riceAndDalText)))
      (utf16 riceAndDalText) riceAndDal (by decide) rfl rfl rfl rfl rfl rfl rfl
      (by unfold hasFence; decide)⟩

end AyurSadhna
